import Mathlib

/-!
Verification development for the FlashKv repository (a Redis-like in-memory
key-value server in C++).  The C++ sources are shallowly embedded: byte
strings become `List Char`, the `std::unordered_map` containers become
association lists (iteration order fixed to insertion order, which is all
the statements use "modulo iteration order"), wall-clock time becomes a
`Nat` of milliseconds since the epoch that is passed explicitly to every
operation that consults the clock, and expiry deadlines become `Int`
milliseconds (`std::chrono::system_clock::time_point` converted with
`duration_cast<milliseconds>`).  Fallible operations return `Option`/`Bool`
results exactly where the C++ returns `bool` plus an out-parameter.
-/

namespace FlashKv

/-- Byte strings of the C++ program (`std::string`) as lists of characters. -/
abbrev Str := List Char

def CRLF : Str := ['\r', '\n']

/-! ### Association-list primitives

`std::unordered_map` is modelled as an association list.  `lookupA` finds the
value bound to a key, `insertA` models `m[k] = v` (update in place, or append
when absent), `eraseA` models `m.erase(k)` (removes the binding).  States keep
their keys pairwise distinct, so "first binding" is "the binding". -/

def lookupA {β : Type} (k : Str) : List (Str × β) → Option β
  | [] => none
  | (k', v) :: rest => if k' = k then some v else lookupA k rest

def memA {β : Type} (k : Str) (l : List (Str × β)) : Bool :=
  (lookupA k l).isSome

def insertA {β : Type} (k : Str) (v : β) : List (Str × β) → List (Str × β)
  | [] => [(k, v)]
  | (k', v') :: rest => if k' = k then (k', v) :: rest else (k', v') :: insertA k v rest

def eraseA {β : Type} (k : Str) : List (Str × β) → List (Str × β)
  | [] => []
  | (k', v') :: rest => if k' = k then rest else (k', v') :: eraseA k rest

/-- Models `m[k].mutate(...)` on a map of containers: `operator[]`
default-constructs `d` when the key is absent, then `f` mutates in place. -/
def upsertA {β : Type} (k : Str) (d : β) (f : β → β) : List (Str × β) → List (Str × β)
  | [] => [(k, f d)]
  | (k', v') :: rest => if k' = k then (k', f v') :: rest else (k', v') :: upsertA k d f rest

/-! ### Decimal numbers on the wire and in the snapshot file -/

def digitChar (d : Nat) : Char := Char.ofNat (48 + d)

def isDigitChar (c : Char) : Bool := 48 ≤ c.toNat && c.toNat ≤ 57

/-- Fuel-driven core of `natChars`; `fuel > n` always suffices, and the fuel
only serves to make the recursion structural (so that terms evaluate inside
`decide`/`rfl` proofs). -/
def natCharsGo : Nat → Nat → Str
  | 0, _ => []
  | fuel + 1, n =>
    if n < 10 then [digitChar n]
    else natCharsGo fuel (n / 10) ++ [digitChar (n % 10)]

/-- Decimal rendering of a natural number, as `std::to_string` /
`operator<<` produce it. -/
def natChars (n : Nat) : Str := natCharsGo (n + 1) n

theorem natCharsGo_fuel {f1 f2 n : Nat} (h1 : n < f1) (h2 : n < f2) :
    natCharsGo f1 n = natCharsGo f2 n := by
  induction f1 generalizing f2 n with
  | zero => omega
  | succ f ih =>
    cases f2 with
    | zero => omega
    | succ g =>
      simp only [natCharsGo]
      by_cases h : n < 10
      · simp [h]
      · have hd : n / 10 < f := by omega
        have hd2 : n / 10 < g := by omega
        simp [h, ih hd hd2]

/-- The defining unfolding of `natChars`. -/
theorem natChars_eq (n : Nat) :
    natChars n =
      if n < 10 then [digitChar n] else natChars (n / 10) ++ [digitChar (n % 10)] := by
  by_cases h : n < 10
  · simp [natChars, natCharsGo, h]
  · have e1 : natChars n = natCharsGo n (n / 10) ++ [digitChar (n % 10)] := by
      simp [natChars, natCharsGo, h]
    have e2 : natCharsGo n (n / 10) = natCharsGo (n / 10 + 1) (n / 10) :=
      natCharsGo_fuel (by omega) (by omega)
    rw [e1, e2, if_neg h]
    rfl

/-- Decimal rendering of an integer (`std::to_string(long long)`). -/
def intChars (i : Int) : Str :=
  if i < 0 then '-' :: natChars i.natAbs else natChars i.toNat

/-- The characters `std::isspace` accepts in the "C" locale. -/
def isSpaceChar (c : Char) : Bool :=
  c = ' ' || c = '\t' || c = '\n' || c = '\x0b' || c = '\x0c' || c = '\r'

/-- Consume a maximal run of decimal digits, accumulating their value. -/
def readDigits (acc : Nat) : Str → Nat × Str
  | [] => (acc, [])
  | c :: rest =>
    if isDigitChar c then readDigits (acc * 10 + (c.toNat - 48)) rest
    else (acc, c :: rest)

/-- Strip an optional leading sign, reporting whether it was a minus. -/
def stripSign : Str → Bool × Str
  | '-' :: r => (true, r)
  | '+' :: r => (false, r)
  | s => (false, s)

/-- Negate when the sign was minus, and fail when the value falls outside
`[lo, hi]` (modelling the `std::out_of_range` exception). -/
def signClamp (lo hi : Int) (neg : Bool) (v0 : Nat) : Option Int :=
  if (if neg then -(v0 : Int) else (v0 : Int)) < lo ∨
      hi < (if neg then -(v0 : Int) else (v0 : Int)) then none
  else some (if neg then -(v0 : Int) else (v0 : Int))

/-- Shared model of `std::stoi` / `std::stoll`: skip leading whitespace, read an
optional sign and at least one digit, stop at the first non-digit, and fail
(`none`, modelling the thrown exception) when there is no digit or the value
falls outside `[lo, hi]`. -/
def parseSigned (lo hi : Int) (s : Str) : Option Int :=
  match stripSign (s.dropWhile isSpaceChar) with
  | (neg, s2) =>
    match s2 with
    | [] => none
    | c :: _ => if isDigitChar c then signClamp lo hi neg (readDigits 0 s2).1 else none

/-- Model of `std::stoi` (32-bit `int` range). -/
def stoiChars (s : Str) : Option Int := parseSigned (-(2 ^ 31)) (2 ^ 31 - 1) s

/-- Model of `std::stoll` (64-bit `long long` range). -/
def stollChars (s : Str) : Option Int := parseSigned (-(2 ^ 63)) (2 ^ 63 - 1) s

/-! ### The database state

`RedisDatabase` owns four maps (`kv_store`, `list_store`, `hash_store`,
`expiry_map`) plus the file-static `last_sweep` time stamp used by the
rate-limited sweep.  The mutex serializes operations; each public operation is
modelled as one atomic function on this state. -/

structure DBState where
  kv_store : List (Str × Str)
  list_store : List (Str × List Str)
  hash_store : List (Str × List (Str × Str))
  expiry_map : List (Str × Int)
  last_sweep : Nat
deriving Repr, DecidableEq

def emptyDB : DBState := ⟨[], [], [], [], 0⟩

namespace RedisDatabase

def SWEEP_INTERVAL : Nat := 1000

/-- Models `sys_clock::now() >= tp` with `now` in milliseconds since epoch. -/
def tp_expired (now : Nat) (tp : Int) : Bool := tp ≤ (now : Int)

/-- Models the helper `fastErase`: erase the key from the first of the three
stores that contains it (`if (!kv.erase(key)) if (!lists.erase(key))
hash.erase(key);`). -/
def fastErase (key : Str) (st : DBState) : DBState :=
  if memA key st.kv_store then { st with kv_store := eraseA key st.kv_store }
  else if memA key st.list_store then { st with list_store := eraseA key st.list_store }
  else { st with hash_store := eraseA key st.hash_store }

/-- Models `RedisDatabase::checkExpired`: when the key has an expiry whose
deadline has passed, erase the key (from the first store containing it) and
its expiry entry, and report `true`. -/
def checkExpired (now : Nat) (key : Str) (st : DBState) : DBState × Bool :=
  match lookupA key st.expiry_map with
  | some tp =>
    if tp_expired now tp then
      let st1 := fastErase key st
      ({ st1 with expiry_map := eraseA key st1.expiry_map }, true)
    else (st, false)
  | none => (st, false)

/-- One pass of `purgeExpired_locked` over a list of expiry entries. -/
def purgeList (now : Nat) : List (Str × Int) → DBState → DBState
  | [], st => st
  | (k, tp) :: rest, st =>
    if tp_expired now tp then
      let st1 := fastErase k st
      purgeList now rest { st1 with expiry_map := eraseA k st1.expiry_map }
    else purgeList now rest st

/-- Models `RedisDatabase::purgeExpired_locked`: sweep the whole expiry map,
erasing every entry whose deadline has passed together with its data. -/
def purgeExpired_locked (now : Nat) (st : DBState) : DBState :=
  purgeList now st.expiry_map st

/-- Models `RedisDatabase::maybeFullPurge`: rate-limited full sweep.  If less
than `SWEEP_INTERVAL` has elapsed since `last_sweep` the call does nothing;
otherwise it stamps `last_sweep` and sweeps. -/
def maybeFullPurge (now : Nat) (st : DBState) : DBState :=
  if now - st.last_sweep < SWEEP_INTERVAL then st
  else purgeExpired_locked now { st with last_sweep := now }

/-- Models `RedisDatabase::flushAll` (always returns `true`). -/
def flushAll (st : DBState) : DBState :=
  { st with kv_store := [], list_store := [], hash_store := [], expiry_map := [] }

/-- Models `RedisDatabase::set`: `kv_store[key] = value;` and nothing else. -/
def set (st : DBState) (key value : Str) : DBState :=
  { st with kv_store := insertA key value st.kv_store }

/-- Models `RedisDatabase::get` (out-parameter `value` becomes `Option`). -/
def get (now : Nat) (st : DBState) (key : Str) : Option Str × DBState :=
  let (st1, ex) := checkExpired now key st
  if ex then (none, st1)
  else (lookupA key st1.kv_store, st1)

/-- Models `RedisDatabase::del`: erase from all three stores and the expiry
map; report whether any store contained the key. -/
def del (st : DBState) (key : Str) : Bool × DBState :=
  let removed := memA key st.kv_store || memA key st.list_store || memA key st.hash_store
  (removed,
    { st with
      kv_store := eraseA key st.kv_store
      list_store := eraseA key st.list_store
      hash_store := eraseA key st.hash_store
      expiry_map := eraseA key st.expiry_map })

/-- Models `RedisDatabase::keys`: rate-limited purge, then list the keys of
all three stores. -/
def keys (now : Nat) (st : DBState) : List Str × DBState :=
  let st1 := maybeFullPurge now st
  (st1.kv_store.map Prod.fst ++ st1.list_store.map Prod.fst ++ st1.hash_store.map Prod.fst, st1)

/-- Models `RedisDatabase::type`. -/
def type (now : Nat) (st : DBState) (key : Str) : Str × DBState :=
  let (st1, ex) := checkExpired now key st
  if ex then ("none".toList, st1)
  else if memA key st1.kv_store then ("string".toList, st1)
  else if memA key st1.list_store then ("list".toList, st1)
  else if memA key st1.hash_store then ("hash".toList, st1)
  else ("none".toList, st1)

/-- Models `RedisDatabase::expire`: requires the key to exist in some store;
sets the deadline to `now + seconds` (the `int` argument may be negative). -/
def expire (now : Nat) (st : DBState) (key : Str) (seconds : Int) : Bool × DBState :=
  if memA key st.kv_store || memA key st.list_store || memA key st.hash_store then
    (true, { st with expiry_map := insertA key ((now : Int) + seconds * 1000) st.expiry_map })
  else (false, st)

/-- Models `RedisDatabase::rename`: unconditionally clear the new key (first
store containing it, plus its expiry entry), then move the value of the old
key in
each store and its expiry entry; report whether the old key was found. -/
def rename (st : DBState) (oldKey newKey : Str) : Bool × DBState :=
  let st1 := fastErase newKey st
  let st1 := { st1 with expiry_map := eraseA newKey st1.expiry_map }
  let (found1, st2) :=
    match lookupA oldKey st1.kv_store with
    | some v => (true, { st1 with kv_store := eraseA oldKey (insertA newKey v st1.kv_store) })
    | none => (false, st1)
  let (found2, st3) :=
    match lookupA oldKey st2.list_store with
    | some v => (true, { st2 with list_store := eraseA oldKey (insertA newKey v st2.list_store) })
    | none => (false, st2)
  let (found3, st4) :=
    match lookupA oldKey st3.hash_store with
    | some v => (true, { st3 with hash_store := eraseA oldKey (insertA newKey v st3.hash_store) })
    | none => (false, st3)
  let st5 :=
    match lookupA oldKey st4.expiry_map with
    | some e => { st4 with expiry_map := eraseA oldKey (insertA newKey e st4.expiry_map) }
    | none => st4
  (found1 || found2 || found3, st5)

/-- Models `RedisDatabase::lget`. -/
def lget (now : Nat) (st : DBState) (key : Str) : List Str × DBState :=
  let (st1, ex) := checkExpired now key st
  if ex then ([], st1)
  else
    match lookupA key st1.list_store with
    | none => ([], st1)
    | some l => (l, st1)

/-- Models `RedisDatabase::llen`. -/
def llen (now : Nat) (st : DBState) (key : Str) : Int × DBState :=
  let (st1, ex) := checkExpired now key st
  if ex then (0, st1)
  else
    match lookupA key st1.list_store with
    | none => (0, st1)
    | some l => ((l.length : Int), st1)

/-- Models `RedisDatabase::lpush` (both source branches perform the same
`list_store[key].push_front(value)`). -/
def lpush (now : Nat) (st : DBState) (key value : Str) : DBState :=
  let st1 := (checkExpired now key st).1
  { st1 with list_store := upsertA key [] (fun l => value :: l) st1.list_store }

/-- Models `RedisDatabase::rpush` (both source branches perform the same
`list_store[key].push_back(value)`). -/
def rpush (now : Nat) (st : DBState) (key value : Str) : DBState :=
  let st1 := (checkExpired now key st).1
  { st1 with list_store := upsertA key [] (fun l => l ++ [value]) st1.list_store }

/-- The `count > 0` branch of `lrem`: keep elements, skipping up to `budget`
occurrences of `value` from the front. -/
def remHead (value : Str) : Nat → List Str → Nat × List Str
  | _, [] => (0, [])
  | budget, v :: rest =>
    if v = value && budget > 0 then
      let (n, l) := remHead value (budget - 1) rest
      (n + 1, l)
    else
      let (n, l) := remHead value budget rest
      (n, v :: l)

/-- The `count == 0` branch of `lrem`: remove every occurrence of `value`. -/
def remAll (value : Str) : List Str → Nat × List Str
  | [] => (0, [])
  | v :: rest =>
    let (n, l) := remAll value rest
    if v = value then (n + 1, l) else (n, v :: l)

/-- Models `RedisDatabase::lrem` with its three count branches. -/
def lrem (now : Nat) (st : DBState) (key : Str) (count : Int) (value : Str) :
    Int × DBState :=
  let (st1, ex) := checkExpired now key st
  if ex then (0, st1)
  else
    match lookupA key st1.list_store with
    | none => (0, st1)
    | some lst =>
      if count = 0 then
        let (n, l) := remAll value lst
        ((n : Int), { st1 with list_store := insertA key l st1.list_store })
      else if 0 < count then
        let (n, l) := remHead value count.toNat lst
        ((n : Int), { st1 with list_store := insertA key l st1.list_store })
      else
        let (n, l) := remHead value (-count).toNat lst.reverse
        ((n : Int), { st1 with list_store := insertA key l.reverse st1.list_store })

/-- Models `RedisDatabase::lpop` (the emptied deque stays in the map). -/
def lpop (now : Nat) (st : DBState) (key : Str) : Option Str × DBState :=
  let (st1, ex) := checkExpired now key st
  if ex then (none, st1)
  else
    match lookupA key st1.list_store with
    | none => (none, st1)
    | some [] => (none, st1)
    | some (v :: rest) => (some v, { st1 with list_store := insertA key rest st1.list_store })

/-- Models `RedisDatabase::rpop`. -/
def rpop (now : Nat) (st : DBState) (key : Str) : Option Str × DBState :=
  let (st1, ex) := checkExpired now key st
  if ex then (none, st1)
  else
    match lookupA key st1.list_store with
    | none => (none, st1)
    | some l =>
      match l.getLast? with
      | none => (none, st1)
      | some v => (some v, { st1 with list_store := insertA key l.dropLast st1.list_store })

/-- Models `RedisDatabase::lindex` (negative index counts from the tail). -/
def lindex (now : Nat) (st : DBState) (key : Str) (index : Int) : Option Str × DBState :=
  let (st1, ex) := checkExpired now key st
  if ex then (none, st1)
  else
    match lookupA key st1.list_store with
    | none => (none, st1)
    | some lst =>
      let sz : Int := lst.length
      let idx := if index < 0 then index + sz else index
      if idx < 0 || sz ≤ idx then (none, st1)
      else (lst.get? idx.toNat, st1)

/-- Models `RedisDatabase::lset`. -/
def lset (now : Nat) (st : DBState) (key : Str) (index : Int) (value : Str) :
    Bool × DBState :=
  let (st1, ex) := checkExpired now key st
  if ex then (false, st1)
  else
    match lookupA key st1.list_store with
    | none => (false, st1)
    | some lst =>
      let sz : Int := lst.length
      let idx := if index < 0 then index + sz else index
      if idx < 0 || sz ≤ idx then (false, st1)
      else (true, { st1 with list_store := insertA key (lst.set idx.toNat value) st1.list_store })

/-- Models `RedisDatabase::hset` (both source branches perform the same
`hash_store[key][field] = value;`; always returns `true`). -/
def hset (now : Nat) (st : DBState) (key field value : Str) : Bool × DBState :=
  let st1 := (checkExpired now key st).1
  (true, { st1 with hash_store := upsertA key [] (insertA field value) st1.hash_store })

/-- Models `RedisDatabase::hget`. -/
def hget (now : Nat) (st : DBState) (key field : Str) : Option Str × DBState :=
  let (st1, ex) := checkExpired now key st
  if ex then (none, st1)
  else
    match lookupA key st1.hash_store with
    | none => (none, st1)
    | some h => (lookupA field h, st1)

/-- Models `RedisDatabase::hexists`. -/
def hexists (now : Nat) (st : DBState) (key field : Str) : Bool × DBState :=
  let (st1, ex) := checkExpired now key st
  if ex then (false, st1)
  else
    match lookupA key st1.hash_store with
    | none => (false, st1)
    | some h => (memA field h, st1)

/-- Models `RedisDatabase::hdel` (the emptied hash stays in the map). -/
def hdel (now : Nat) (st : DBState) (key field : Str) : Bool × DBState :=
  let (st1, ex) := checkExpired now key st
  if ex then (false, st1)
  else
    match lookupA key st1.hash_store with
    | none => (false, st1)
    | some h =>
      (memA field h, { st1 with hash_store := insertA key (eraseA field h) st1.hash_store })

/-- Models `RedisDatabase::hgetall`. -/
def hgetall (now : Nat) (st : DBState) (key : Str) : List (Str × Str) × DBState :=
  let (st1, ex) := checkExpired now key st
  if ex then ([], st1)
  else
    match lookupA key st1.hash_store with
    | none => ([], st1)
    | some h => (h, st1)

/-- Models `RedisDatabase::hkeys`. -/
def hkeys (now : Nat) (st : DBState) (key : Str) : List Str × DBState :=
  let (st1, ex) := checkExpired now key st
  if ex then ([], st1)
  else
    match lookupA key st1.hash_store with
    | none => ([], st1)
    | some h => (h.map Prod.fst, st1)

/-- Models `RedisDatabase::hvals`. -/
def hvals (now : Nat) (st : DBState) (key : Str) : List Str × DBState :=
  let (st1, ex) := checkExpired now key st
  if ex then ([], st1)
  else
    match lookupA key st1.hash_store with
    | none => ([], st1)
    | some h => (h.map Prod.snd, st1)

/-- Models `RedisDatabase::hlen`. -/
def hlen (now : Nat) (st : DBState) (key : Str) : Int × DBState :=
  let (st1, ex) := checkExpired now key st
  if ex then (0, st1)
  else
    match lookupA key st1.hash_store with
    | none => (0, st1)
    | some h => ((h.length : Int), st1)

/-- Models `RedisDatabase::hmset` (both source branches write the pairs in
order into `hash_store[key]`). -/
def hmset (now : Nat) (st : DBState) (key : Str) (fv : List (Str × Str)) : Bool × DBState :=
  let st1 := (checkExpired now key st).1
  (true,
    { st1 with
      hash_store := upsertA key [] (fun h => fv.foldl (fun m p => insertA p.1 p.2 m) h) st1.hash_store })

/-- Models the `trim` lambda inside `incr`: strip leading and trailing
characters drawn from `" \t\r\n"`. -/
def isTrimChar (c : Char) : Bool := c = ' ' || c = '\t' || c = '\r' || c = '\n'

def trim (s : Str) : Str :=
  ((s.dropWhile isTrimChar).reverse.dropWhile isTrimChar).reverse

/-- Models the safe `RedisDatabase::incr(key, out)`: check expiry, treat a
missing key as creating `"1"`, otherwise trim and `stoll` the stored string,
add one and write the result back; `none` models the `false` return (the
caught exception).  The `long long` increment is modelled on `Int` (the claim
leaves the `INT64_MAX` overflow, which is undefined behaviour in the source,
out of scope). -/
def incr (now : Nat) (st : DBState) (key : Str) : Option Int × DBState :=
  let st1 := (checkExpired now key st).1
  match lookupA key st1.kv_store with
  | none => (some 1, { st1 with kv_store := insertA key ['1'] st1.kv_store })
  | some s =>
    match stollChars (trim s) with
    | some v => (some (v + 1), { st1 with kv_store := insertA key (intChars (v + 1)) st1.kv_store })
    | none => (none, st1)

end RedisDatabase

/-! ### RedisCommandHandler: RESP parsing, reply builders, dispatch

Positions into the buffer are `size_t` values; the C++ occasionally mixes a
signed `int` from `std::stoi` into `size_t` arithmetic via
`static_cast<size_t>`, which wraps modulo `2^64`.  `castSizeT` and explicit
`% U64` model that wrap exactly. -/

def U64 : Nat := 2 ^ 64

/-- The `size_t` value of a signed quantity (`static_cast<size_t>`). -/
def castSizeT (i : Int) : Nat := (i.emod (U64 : Int)).toNat

/-- Index of the first occurrence of `"\r\n"` in a string. -/
def crlfIdx : Str → Option Nat
  | [] => none
  | c :: rest =>
    if c = '\r' ∧ rest.head? = some '\n' then some 0
    else (crlfIdx rest).map (· + 1)

/-- Models `buffer.find("\r\n", start)`: absolute index of the first CRLF at
or after `start`. -/
def findCRLF (buf : Str) (start : Nat) : Option Nat :=
  (crlfIdx (buf.drop start)).map (· + start)

/-- Models `buffer.substr(pos, n)` (the count clamps at the end of string). -/
def substr (buf : Str) (pos n : Nat) : Str := (buf.drop pos).take n

namespace RedisCommandHandler

theorem dropWhile_len_le (p : Char → Bool) (l : Str) : (l.dropWhile p).length ≤ l.length := by
  induction l with
  | nil => simp
  | cons c rest ih =>
    by_cases h : p c <;> simp [List.dropWhile, h] <;> omega

/-- The whitespace-split fallback of `parseRespViews` for non-RESP input. -/
def wsSplit : Str → List Str
  | [] => []
  | c :: rest =>
    if isSpaceChar c then wsSplit rest
    else
      (c :: rest.takeWhile (fun d => !isSpaceChar d)) ::
        wsSplit (rest.dropWhile (fun d => !isSpaceChar d))
termination_by s => s.length
decreasing_by
  · exact Nat.lt_succ_of_le (Nat.le_refl _)
  · exact Nat.lt_succ_of_le (dropWhile_len_le _ _)

/-- The bulk-reading loop of `parseRespViews`: read up to `count` bulk
strings starting at `pos`; any malformed or truncated bulk stops the loop,
returning the tokens collected so far. -/
def parseBulkTokens (input : Str) : Nat → Nat → List Str
  | 0, _ => []
  | count + 1, pos =>
    match input.get? pos with
    | none => []
    | some c =>
      if c ≠ '$' then []
      else
        match findCRLF input (pos + 1) with
        | none => []
        | some crlf =>
          match stoiChars (substr input (pos + 1) (crlf - (pos + 1))) with
          | none => []
          | some len =>
            let pos2 := crlf + 2
            if (pos2 + castSizeT len) % U64 > input.length then []
            else
              substr input pos2 (castSizeT len) ::
                parseBulkTokens input count ((pos2 + castSizeT len + 2) % U64)

/-- Models `RedisCommandHandler::parseRespViews`. -/
def parseRespViews (input : Str) : List Str :=
  match input with
  | [] => []
  | c :: _ =>
    if c ≠ '*' then wsSplit input
    else
      match findCRLF input 1 with
      | none => []
      | some crlf =>
        match stoiChars (substr input 1 (crlf - 1)) with
        | none => []
        | some elements =>
          if elements ≤ 0 then []
          else parseBulkTokens input elements.toNat (crlf + 2)

/-- Models `simpleString`. -/
def simpleString (s : Str) : Str := '+' :: s ++ CRLF

/-- Models `bulkStringFromStd` and the identical `bulkStringFromView`. -/
def bulkReply (s : Str) : Str :=
  if s = [] then "$0\r\n\r\n".toList
  else '$' :: natChars s.length ++ CRLF ++ s ++ CRLF

/-- Models `nilBulk`. -/
def nilBulk : Str := "$-1\r\n".toList

/-- Models `integerReply`. -/
def integerReply (v : Int) : Str := ':' :: intChars v ++ CRLF

/-- Models `arrayHeader`. -/
def arrayHeader (n : Nat) : Str := '*' :: natChars n ++ CRLF

/-- Models `std::toupper` on ASCII (C locale). -/
def toUpperChar (c : Char) : Char :=
  if 'a' ≤ c && c ≤ 'z' then Char.ofNat (c.toNat - 32) else c

def upperStr (s : Str) : Str := s.map toUpperChar

/-- Element `i` of the token vector; the handlers only index below the length
they just checked, so the default is never reached on those paths. -/
def tokAt (t : List Str) (i : Nat) : Str := t.getD i []

def handlePing : Str := simpleString "PONG".toList

def handleEcho (t : List Str) : Str :=
  if t.length < 2 then "-Error: ECHO requires a message\r\n".toList
  else bulkReply (tokAt t 1)

def handleSet (t : List Str) (st : DBState) : Str × DBState :=
  if t.length < 3 then ("-Error: SET requires key and value\r\n".toList, st)
  else (simpleString "OK".toList, RedisDatabase.set st (tokAt t 1) (tokAt t 2))

def handleGet (t : List Str) (st : DBState) (now : Nat) : Str × DBState :=
  if t.length < 2 then ("-Error: GET requires key\r\n".toList, st)
  else
    match RedisDatabase.get now st (tokAt t 1) with
    | (some v, st') => (bulkReply v, st')
    | (none, st') => (nilBulk, st')

def handleDel (t : List Str) (st : DBState) : Str × DBState :=
  if t.length < 2 then ("-Error: DEL requires key\r\n".toList, st)
  else
    let (removed, st') := RedisDatabase.del st (tokAt t 1)
    (integerReply (if removed then 1 else 0), st')

def handleFlushAll (st : DBState) : Str × DBState :=
  (simpleString "OK".toList, RedisDatabase.flushAll st)

def handleKeys (st : DBState) (now : Nat) : Str × DBState :=
  let (ks, st') := RedisDatabase.keys now st
  (arrayHeader ks.length ++ (ks.map bulkReply).flatten, st')

def handleType (t : List Str) (st : DBState) (now : Nat) : Str × DBState :=
  if t.length < 2 then ("-Error: TYPE requires key\r\n".toList, st)
  else
    let (ty, st') := RedisDatabase.type now st (tokAt t 1)
    (simpleString ty, st')

def handleExpire (t : List Str) (st : DBState) (now : Nat) : Str × DBState :=
  if t.length < 3 then ("-Error: EXPIRE requires key and time\r\n".toList, st)
  else
    match stoiChars (tokAt t 2) with
    | none => ("-Error: Invalid expiration time\r\n".toList, st)
    | some seconds =>
      match RedisDatabase.expire now st (tokAt t 1) seconds with
      | (true, st') => (simpleString "OK".toList, st')
      | (false, st') => ("-Error: Key not found\r\n".toList, st')

def handleRename (t : List Str) (st : DBState) : Str × DBState :=
  if t.length < 3 then ("-Error: RENAME requires old and new key\r\n".toList, st)
  else
    match RedisDatabase.rename st (tokAt t 1) (tokAt t 2) with
    | (true, st') => (simpleString "OK".toList, st')
    | (false, st') => ("-Error: Rename failed\r\n".toList, st')

def handleLpush (t : List Str) (st : DBState) (now : Nat) : Str × DBState :=
  if t.length < 3 then ("-Error: LPUSH requires key and values\r\n".toList, st)
  else
    let key := tokAt t 1
    let st' := (t.drop 2).foldl (fun s v => RedisDatabase.lpush now s key v) st
    let (n, st'') := RedisDatabase.llen now st' key
    (integerReply n, st'')

def handleRpush (t : List Str) (st : DBState) (now : Nat) : Str × DBState :=
  if t.length < 3 then ("-Error: RPUSH requires key and values\r\n".toList, st)
  else
    let key := tokAt t 1
    let st' := (t.drop 2).foldl (fun s v => RedisDatabase.rpush now s key v) st
    let (n, st'') := RedisDatabase.llen now st' key
    (integerReply n, st'')

def handleLpop (t : List Str) (st : DBState) (now : Nat) : Str × DBState :=
  if t.length < 2 then ("-Error: LPOP requires key\r\n".toList, st)
  else
    match RedisDatabase.lpop now st (tokAt t 1) with
    | (some v, st') => (bulkReply v, st')
    | (none, st') => (nilBulk, st')

def handleRpop (t : List Str) (st : DBState) (now : Nat) : Str × DBState :=
  if t.length < 2 then ("-Error: RPOP requires key\r\n".toList, st)
  else
    match RedisDatabase.rpop now st (tokAt t 1) with
    | (some v, st') => (bulkReply v, st')
    | (none, st') => (nilBulk, st')

def handleLlen (t : List Str) (st : DBState) (now : Nat) : Str × DBState :=
  if t.length < 2 then ("-Error: LLEN requires key\r\n".toList, st)
  else
    let (n, st') := RedisDatabase.llen now st (tokAt t 1)
    (integerReply n, st')

def handleLget (t : List Str) (st : DBState) (now : Nat) : Str × DBState :=
  if t.length < 2 then ("-Error: LGET requires key\r\n".toList, st)
  else
    let (elems, st') := RedisDatabase.lget now st (tokAt t 1)
    (arrayHeader elems.length ++ (elems.map bulkReply).flatten, st')

def handleLrem (t : List Str) (st : DBState) (now : Nat) : Str × DBState :=
  if t.length < 4 then ("-Error: LREM requires key, count and value\r\n".toList, st)
  else
    match stoiChars (tokAt t 2) with
    | none => ("-Error: Invalid count\r\n".toList, st)
    | some count =>
      let (removed, st') := RedisDatabase.lrem now st (tokAt t 1) count (tokAt t 3)
      (integerReply removed, st')

def handleLindex (t : List Str) (st : DBState) (now : Nat) : Str × DBState :=
  if t.length < 3 then ("-Error: LINDEX requires key and index\r\n".toList, st)
  else
    match stoiChars (tokAt t 2) with
    | none => ("-Error: Invalid index\r\n".toList, st)
    | some idx =>
      match RedisDatabase.lindex now st (tokAt t 1) idx with
      | (some v, st') => (bulkReply v, st')
      | (none, st') => (nilBulk, st')

def handleLset (t : List Str) (st : DBState) (now : Nat) : Str × DBState :=
  if t.length < 4 then ("-Error: LSET requires key, index and value\r\n".toList, st)
  else
    match stoiChars (tokAt t 2) with
    | none => ("-Error: Invalid index\r\n".toList, st)
    | some idx =>
      match RedisDatabase.lset now st (tokAt t 1) idx (tokAt t 3) with
      | (true, st') => (simpleString "OK".toList, st')
      | (false, st') => ("-Error: Index out of range\r\n".toList, st')

def handleHset (t : List Str) (st : DBState) (now : Nat) : Str × DBState :=
  if t.length < 4 then ("-Error: HSET requires key, field and value\r\n".toList, st)
  else
    let (_, st') := RedisDatabase.hset now st (tokAt t 1) (tokAt t 2) (tokAt t 3)
    (integerReply 1, st')

def handleHget (t : List Str) (st : DBState) (now : Nat) : Str × DBState :=
  if t.length < 3 then ("-Error: HGET requires key and field\r\n".toList, st)
  else
    match RedisDatabase.hget now st (tokAt t 1) (tokAt t 2) with
    | (some v, st') => (bulkReply v, st')
    | (none, st') => (nilBulk, st')

def handleHexists (t : List Str) (st : DBState) (now : Nat) : Str × DBState :=
  if t.length < 3 then ("-Error: HEXISTS requires key and field\r\n".toList, st)
  else
    let (b, st') := RedisDatabase.hexists now st (tokAt t 1) (tokAt t 2)
    (integerReply (if b then 1 else 0), st')

def handleHdel (t : List Str) (st : DBState) (now : Nat) : Str × DBState :=
  if t.length < 3 then ("-Error: HDEL requires key and field\r\n".toList, st)
  else
    let (b, st') := RedisDatabase.hdel now st (tokAt t 1) (tokAt t 2)
    (integerReply (if b then 1 else 0), st')

def handleHgetall (t : List Str) (st : DBState) (now : Nat) : Str × DBState :=
  if t.length < 2 then ("-Error: HGETALL requires key\r\n".toList, st)
  else
    let (m, st') := RedisDatabase.hgetall now st (tokAt t 1)
    (arrayHeader (m.length * 2) ++ (m.map (fun p => bulkReply p.1 ++ bulkReply p.2)).flatten, st')

def handleHkeys (t : List Str) (st : DBState) (now : Nat) : Str × DBState :=
  if t.length < 2 then ("-Error: HKEYS requires key\r\n".toList, st)
  else
    let (ks, st') := RedisDatabase.hkeys now st (tokAt t 1)
    (arrayHeader ks.length ++ (ks.map bulkReply).flatten, st')

def handleHvals (t : List Str) (st : DBState) (now : Nat) : Str × DBState :=
  if t.length < 2 then ("-Error: HVALS requires key\r\n".toList, st)
  else
    let (vs, st') := RedisDatabase.hvals now st (tokAt t 1)
    (arrayHeader vs.length ++ (vs.map bulkReply).flatten, st')

def handleHlen (t : List Str) (st : DBState) (now : Nat) : Str × DBState :=
  if t.length < 2 then ("-Error: HLEN requires key\r\n".toList, st)
  else
    let (n, st') := RedisDatabase.hlen now st (tokAt t 1)
    (integerReply n, st')

/-- The field-value pair collection loop of `handleHmset`
(`for (i = 2; i + 1 < t.size(); i += 2)`). -/
def pairsOf : List Str → List (Str × Str)
  | a :: b :: rest => (a, b) :: pairsOf rest
  | _ => []

def handleHmset (t : List Str) (st : DBState) (now : Nat) : Str × DBState :=
  if t.length < 4 || (t.length - 2) % 2 ≠ 0 then
    ("-Error: HMSET requires field-value pairs\r\n".toList, st)
  else
    let (_, st') := RedisDatabase.hmset now st (tokAt t 1) (pairsOf (t.drop 2))
    (simpleString "OK".toList, st')

def unknownErr : Str := "-Error: Unknown command\r\n".toList

/-- The if-chain of `RedisCommandHandler::processCommand` on the uppercased
command name `cmd` (a local variable in the source). -/
def dispatch (cmd : Str) (tokens : List Str) (st : DBState) (now : Nat) : Str × DBState :=
  if cmd = "PING".toList then (handlePing, st)
  else if cmd = "ECHO".toList then (handleEcho tokens, st)
  else if cmd = "SET".toList then handleSet tokens st
  else if cmd = "GET".toList then handleGet tokens st now
  else if cmd = "DEL".toList || cmd = "UNLINK".toList then handleDel tokens st
  else if cmd = "FLUSHALL".toList then handleFlushAll st
  else if cmd = "KEYS".toList then handleKeys st now
  else if cmd = "TYPE".toList then handleType tokens st now
  else if cmd = "EXPIRE".toList then handleExpire tokens st now
  else if cmd = "RENAME".toList then handleRename tokens st
  else if cmd = "LPUSH".toList then handleLpush tokens st now
  else if cmd = "RPUSH".toList then handleRpush tokens st now
  else if cmd = "LPOP".toList then handleLpop tokens st now
  else if cmd = "RPOP".toList then handleRpop tokens st now
  else if cmd = "LLEN".toList then handleLlen tokens st now
  else if cmd = "LGET".toList then handleLget tokens st now
  else if cmd = "LREM".toList then handleLrem tokens st now
  else if cmd = "LINDEX".toList then handleLindex tokens st now
  else if cmd = "LSET".toList then handleLset tokens st now
  else if cmd = "HSET".toList then handleHset tokens st now
  else if cmd = "HGET".toList then handleHget tokens st now
  else if cmd = "HEXISTS".toList then handleHexists tokens st now
  else if cmd = "HDEL".toList then handleHdel tokens st now
  else if cmd = "HGETALL".toList then handleHgetall tokens st now
  else if cmd = "HKEYS".toList then handleHkeys tokens st now
  else if cmd = "HVALS".toList then handleHvals tokens st now
  else if cmd = "HLEN".toList then handleHlen tokens st now
  else if cmd = "HMSET".toList then handleHmset tokens st now
  else (unknownErr, st)

/-- Models the dispatch of `RedisCommandHandler::processCommand` on an
already-parsed token vector: empty-command check, uppercase the first token,
then run the if-chain. -/
def processTokens : List Str → DBState → Nat → Str × DBState
  | [], st, _ => ("-Error: Empty command\r\n".toList, st)
  | t0 :: rest, st, now => dispatch (upperStr t0) (t0 :: rest) st now

/-- Models `RedisCommandHandler::processCommand`: parse, then dispatch. -/
def processCommand (frame : Str) (st : DBState) (now : Nat) : Str × DBState :=
  processTokens (parseRespViews frame) st now

/-- The bulk-skipping loop inside `splitFrames`: validate `count` bulks
starting at `cursor`, returning the cursor after the last one, or `none`
when some check fails (`valid = false`). -/
def parseBulksAt (buf : Str) : Nat → Nat → Option Nat
  | 0, cursor => some cursor
  | count + 1, cursor =>
    match buf.get? cursor with
    | none => none
    | some c =>
      if c ≠ '$' then none
      else
        match findCRLF buf (cursor + 1) with
        | none => none
        | some rn2 =>
          match stoiChars (substr buf (cursor + 1) (rn2 - (cursor + 1))) with
          | none => none
          | some len =>
            let c2 := (rn2 + 2 + castSizeT len + 2) % U64
            if c2 > buf.length then none
            else parseBulksAt buf count c2

/-- The `while` loop of `splitFrames`.  The C++ loop can fail to make
progress only through the `size_t` wrap on a negative bulk length, so the
model carries fuel (`buf.length + 1` suffices for every input whose frames
are well-formed, where each frame consumes at least four bytes). -/
def splitLoop (buf : Str) : Nat → Nat → List Str → List Str × Nat
  | 0, pos, acc => (acc, pos)
  | fuel + 1, pos, acc =>
    match buf.get? pos with
    | none => (acc, pos)
    | some c =>
      if c ≠ '*' then (acc, pos)
      else
        match findCRLF buf pos with
        | none => (acc, pos)
        | some rn =>
          match stoiChars (substr buf (pos + 1) (rn - (pos + 1))) with
          | none => (acc, pos)
          | some elements =>
            match parseBulksAt buf elements.toNat (rn + 2) with
            | none => (acc, pos)
            | some cursor =>
              splitLoop buf fuel cursor
                (acc ++ [substr buf pos (castSizeT ((cursor : Int) - (pos : Int)))])

/-- Models `RedisCommandHandler::splitFrames`.  The C++ returns the frame
vector; the final value of `pos` (returned here as well) marks how many
leading bytes the frames cover, the rest of the buffer being the residual
the caller must keep. -/
def splitFrames (buf : Str) : List Str × Nat :=
  splitLoop buf (buf.length + 1) 0 []

end RedisCommandHandler

/-! ### RedisServer::handleClient, reduced to its data path

One client connection: each `recv` chunk is appended to `buffer`; if the
buffer exceeds `MAX_BUFFER` the handler sends a protocol error and closes;
otherwise every frame `splitFrames` returns on the whole buffer is dispatched
through `processCommand` and its reply sent.  The source never removes
consumed bytes from `buffer`. -/

def MAX_BUFFER : Nat := 4 * 1024 * 1024

def handleClientLoop (now : Nat) : List Str → Str → DBState → List Str × DBState
  | [], _, st => ([], st)
  | chunk :: rest, buffer, st =>
    let buffer := buffer ++ chunk
    if buffer.length > MAX_BUFFER then (["-ERR payload too large\r\n".toList], st)
    else
      let frames := (RedisCommandHandler.splitFrames buffer).1
      let (replies, st') :=
        frames.foldl
          (fun (p : List Str × DBState) f =>
            let (r, s2) := RedisCommandHandler.processCommand f p.2 now
            (p.1 ++ [r], s2))
          ([], st)
      let (more, st'') := handleClientLoop now rest buffer st'
      (replies ++ more, st'')

/-- Models `RedisServer::handleClient` over a list of received chunks,
collecting the replies written back to the socket in order. -/
def handleClient (now : Nat) (chunks : List Str) (st : DBState) : List Str × DBState :=
  handleClientLoop now chunks [] st

/-! ## Generic lemmas about the association-list primitives -/

/-- The keys of an association list are pairwise distinct (always true of the
underlying `std::unordered_map`). -/
def nodupKeys {β : Type} (l : List (Str × β)) : Prop := (l.map Prod.fst).Nodup

theorem lookupA_insertA_self {β : Type} (k : Str) (v : β) (l : List (Str × β)) :
    lookupA k (insertA k v l) = some v := by
  induction l with
  | nil => simp [insertA, lookupA]
  | cons p rest ih =>
    obtain ⟨k', v'⟩ := p
    by_cases h : k' = k <;> simp [insertA, lookupA, h, ih]

theorem lookupA_insertA_ne {β : Type} {j k : Str} (h : j ≠ k) (v : β) (l : List (Str × β)) :
    lookupA k (insertA j v l) = lookupA k l := by
  induction l with
  | nil => simp [insertA, lookupA, h]
  | cons p rest ih =>
    obtain ⟨k', v'⟩ := p
    by_cases h2 : k' = j
    · subst h2; simp [insertA, lookupA, h]
    · simp [insertA, lookupA, h2, ih]

theorem lookupA_eraseA_of_none {β : Type} {k : Str} {l : List (Str × β)}
    (h : lookupA k l = none) (j : Str) : lookupA k (eraseA j l) = none := by
  induction l with
  | nil => exact h
  | cons p rest ih =>
    obtain ⟨k', v'⟩ := p
    simp only [lookupA] at h
    by_cases h2 : k' = k
    · simp [h2] at h
    · simp only [if_neg h2] at h
      by_cases h3 : k' = j
      · simpa [eraseA, h3] using h
      · simp [eraseA, lookupA, h2, h3, ih h]

theorem lookupA_mem_fst {β : Type} {k : Str} {v : β} {l : List (Str × β)}
    (h : lookupA k l = some v) : k ∈ l.map Prod.fst := by
  induction l with
  | nil => exact Option.noConfusion h
  | cons p rest ih =>
    obtain ⟨k', v'⟩ := p
    by_cases h2 : k' = k
    · subst h2
      rw [List.map_cons]
      exact List.mem_cons_self _ _
    · simp only [lookupA, if_neg h2] at h
      rw [List.map_cons]
      exact List.mem_cons_of_mem _ (ih h)

theorem lookupA_eraseA_self {β : Type} {l : List (Str × β)} (h : nodupKeys l) (k : Str) :
    lookupA k (eraseA k l) = none := by
  induction l with
  | nil => rfl
  | cons p rest ih =>
    obtain ⟨k', v'⟩ := p
    simp only [nodupKeys, List.map_cons, List.nodup_cons] at h
    by_cases h2 : k' = k
    · subst h2
      have : lookupA k' rest = none := by
        rcases hl : lookupA k' rest with _ | w
        · rfl
        · exact absurd (lookupA_mem_fst hl) h.1
      simpa [eraseA] using this
    · simp [eraseA, h2, lookupA, ih h.2]

theorem memA_false_iff {β : Type} (k : Str) (l : List (Str × β)) :
    memA k l = false ↔ lookupA k l = none := by
  cases h : lookupA k l <;> simp [memA, h]

theorem memA_true_iff {β : Type} (k : Str) (l : List (Str × β)) :
    memA k l = true ↔ ∃ v, lookupA k l = some v := by
  cases h : lookupA k l <;> simp [memA, h]

theorem lookupA_upsertA_self {β : Type} (k : Str) (d : β) (f : β → β) (l : List (Str × β)) :
    lookupA k (upsertA k d f l) =
      some (f ((lookupA k l).getD d)) := by
  induction l with
  | nil => simp [upsertA, lookupA]
  | cons p rest ih =>
    obtain ⟨k', v'⟩ := p
    by_cases h : k' = k <;> simp [upsertA, lookupA, h, ih]

theorem lookupA_upsertA_ne {β : Type} {j k : Str} (h : j ≠ k) (d : β) (f : β → β)
    (l : List (Str × β)) : lookupA k (upsertA j d f l) = lookupA k l := by
  induction l with
  | nil => simp [upsertA, lookupA, h]
  | cons p rest ih =>
    obtain ⟨k', v'⟩ := p
    by_cases h2 : k' = j
    · subst h2; simp [upsertA, lookupA, h]
    · simp [upsertA, lookupA, h2, ih]

/-! ## Lemmas about expiry checking -/

/-- The key is live at `now`: it either has no expiry entry or a deadline
strictly in the future. -/
def keyLive (now : Nat) (st : DBState) (k : Str) : Prop :=
  ∀ d, lookupA k st.expiry_map = some d → (now : Int) < d

theorem checkExpired_live {now : Nat} {st : DBState} {k : Str} (h : keyLive now st k) :
    RedisDatabase.checkExpired now k st = (st, false) := by
  unfold RedisDatabase.checkExpired
  rcases hd : lookupA k st.expiry_map with _ | d
  · rfl
  · have : RedisDatabase.tp_expired now d = false := by
      have := h d hd
      simp [RedisDatabase.tp_expired]
      omega
    simp [this]

theorem fastErase_expiry (k : Str) (st : DBState) :
    (RedisDatabase.fastErase k st).expiry_map = st.expiry_map := by
  unfold RedisDatabase.fastErase; split_ifs <;> rfl

theorem fastErase_sweep (k : Str) (st : DBState) :
    (RedisDatabase.fastErase k st).last_sweep = st.last_sweep := by
  unfold RedisDatabase.fastErase; split_ifs <;> rfl

theorem fastErase_kv_none {k : Str} {st : DBState} (j : Str)
    (h : lookupA k st.kv_store = none) :
    lookupA k (RedisDatabase.fastErase j st).kv_store = none := by
  unfold RedisDatabase.fastErase
  split_ifs <;> first | exact lookupA_eraseA_of_none h j | exact h

theorem fastErase_list_none {k : Str} {st : DBState} (j : Str)
    (h : lookupA k st.list_store = none) :
    lookupA k (RedisDatabase.fastErase j st).list_store = none := by
  unfold RedisDatabase.fastErase
  split_ifs <;> first | exact lookupA_eraseA_of_none h j | exact h

theorem fastErase_hash_none {k : Str} {st : DBState} (j : Str)
    (h : lookupA k st.hash_store = none) :
    lookupA k (RedisDatabase.fastErase j st).hash_store = none := by
  unfold RedisDatabase.fastErase
  split_ifs <;> first | exact lookupA_eraseA_of_none h j | exact h

theorem checkExpired_kv_none {now : Nat} {st : DBState} {k : Str}
    (h : lookupA k st.kv_store = none) :
    lookupA k (RedisDatabase.checkExpired now k st).1.kv_store = none := by
  unfold RedisDatabase.checkExpired
  rcases hd : lookupA k st.expiry_map with _ | d
  · exact h
  · by_cases he : RedisDatabase.tp_expired now d
    · simp only [he, if_true]
      exact fastErase_kv_none k h
    · simp only [he]; simpa using h

/-! ## Claim C2: what `set` really does -/

/-- Claim C2 states that `set(k, v)` removes a previously stored value of a
different type at `k` and clears the expiry entry of `k`.  The source
contradicts this: after `lpush k a; expire k 100; set k v` the key still has
its list value and still has its expiry entry. -/
theorem c2_counterexample :
    lookupA "k".toList
        (RedisDatabase.set
          ((RedisDatabase.expire 0 (RedisDatabase.lpush 0 emptyDB "k".toList "a".toList)
            "k".toList 100).2)
          "k".toList "v".toList).list_store = some ["a".toList] ∧
    lookupA "k".toList
        (RedisDatabase.set
          ((RedisDatabase.expire 0 (RedisDatabase.lpush 0 emptyDB "k".toList "a".toList)
            "k".toList 100).2)
          "k".toList "v".toList).expiry_map = some 100000 := by
  constructor <;> rfl

/-- Claim C2, amended: `set(k, v)` writes the string value at `k` and leaves
the list store, the hash store and the expiry table untouched; consequently a
following `get k` returns `v` only while `k` is live, and returns nothing once
a pre-existing expiry deadline of `k` has passed. -/
theorem c2_set_effect (st : DBState) (k v : Str) (now : Nat) :
    (RedisDatabase.set st k v).kv_store = insertA k v st.kv_store ∧
    (RedisDatabase.set st k v).list_store = st.list_store ∧
    (RedisDatabase.set st k v).hash_store = st.hash_store ∧
    (RedisDatabase.set st k v).expiry_map = st.expiry_map ∧
    (keyLive now st k →
      (RedisDatabase.get now (RedisDatabase.set st k v) k).1 = some v) ∧
    (∀ d, lookupA k st.expiry_map = some d → RedisDatabase.tp_expired now d = true →
      (RedisDatabase.get now (RedisDatabase.set st k v) k).1 = none) := by
  refine ⟨rfl, rfl, rfl, rfl, ?_, ?_⟩
  · intro h
    have hlive : keyLive now (RedisDatabase.set st k v) k := h
    unfold RedisDatabase.get
    rw [checkExpired_live hlive]
    simp [RedisDatabase.set, lookupA_insertA_self]
  · intro d hd hexp
    unfold RedisDatabase.get RedisDatabase.checkExpired
    have hd2 : lookupA k (RedisDatabase.set st k v).expiry_map = some d := hd
    rw [hd2]
    simp [hexp]

theorem c2_witness :
    (RedisDatabase.set emptyDB "k".toList "v".toList).kv_store =
      insertA "k".toList "v".toList emptyDB.kv_store ∧
    (RedisDatabase.get 5 (RedisDatabase.set emptyDB "k".toList "v".toList) "k".toList).1 =
      some "v".toList := by
  have h := c2_set_effect emptyDB "k".toList "v".toList 5
  refine ⟨h.1, h.2.2.2.2.1 ?_⟩
  intro d hd
  exact Option.noConfusion hd

/-! ## Claim C9: `incr` behaviour -/

/-- Claim C9: `incr(k)` on an absent key stores `"1"` and returns 1; on a
live stored string trimming to `"42"` it stores `"43"` and returns 43; and
when the live stored string does not parse as a signed 64-bit integer it
reports the error and leaves the whole state unchanged. -/
theorem c9_incr_cases (st : DBState) (now : Nat) (k : Str) :
    (lookupA k st.kv_store = none →
      (RedisDatabase.incr now st k).1 = some 1 ∧
      lookupA k (RedisDatabase.incr now st k).2.kv_store = some "1".toList) ∧
    (∀ s, lookupA k st.kv_store = some s → keyLive now st k → RedisDatabase.trim s = "42".toList →
      (RedisDatabase.incr now st k).1 = some 43 ∧
      (RedisDatabase.incr now st k).2 =
        { st with kv_store := insertA k "43".toList st.kv_store }) ∧
    (∀ s, lookupA k st.kv_store = some s → keyLive now st k →
      stollChars (RedisDatabase.trim s) = none →
      (RedisDatabase.incr now st k).1 = none ∧ (RedisDatabase.incr now st k).2 = st) := by
  refine ⟨?_, ?_, ?_⟩
  · intro h
    have h1 := @checkExpired_kv_none now st k h
    unfold RedisDatabase.incr
    simp only [h1]
    exact ⟨trivial, lookupA_insertA_self _ _ _⟩
  · intro s hs hlive htrim
    unfold RedisDatabase.incr
    rw [checkExpired_live hlive]
    simp only [hs, htrim]
    exact ⟨rfl, rfl⟩
  · intro s hs hlive hparse
    unfold RedisDatabase.incr
    rw [checkExpired_live hlive]
    simp only [hs, hparse]
    exact ⟨trivial, trivial⟩

theorem c9_witness :
    ((RedisDatabase.incr 0 emptyDB "a".toList).1 = some 1 ∧
      lookupA "a".toList (RedisDatabase.incr 0 emptyDB "a".toList).2.kv_store =
        some "1".toList) ∧
    ((RedisDatabase.incr 0 (RedisDatabase.set emptyDB "b".toList " 42 ".toList)
        "b".toList).1 = some 43) ∧
    ((RedisDatabase.incr 0 (RedisDatabase.set emptyDB "c".toList "xx".toList)
        "c".toList).1 = none ∧
      (RedisDatabase.incr 0 (RedisDatabase.set emptyDB "c".toList "xx".toList)
        "c".toList).2 =
        RedisDatabase.set emptyDB "c".toList "xx".toList) := by
  refine ⟨(c9_incr_cases emptyDB 0 "a".toList).1 rfl, ?_, ?_⟩
  · exact ((c9_incr_cases (RedisDatabase.set emptyDB "b".toList " 42 ".toList) 0
      "b".toList).2.1 " 42 ".toList rfl (fun d hd => Option.noConfusion hd) (by rfl)).1
  · exact (c9_incr_cases (RedisDatabase.set emptyDB "c".toList "xx".toList) 0
      "c".toList).2.2 "xx".toList rfl (fun d hd => Option.noConfusion hd) (by rfl)

/-! ## Claim C10: `rename` with a missing old key is not a no-op -/

/-- Claim C10: when `oldKey` is absent from all three type stores,
`rename(oldKey, newKey)` returns `false`, yet it has already deleted the
value stored under `newKey` (from the first type store containing it, which
is exactly `fastErase`) and removed the expiry entry of `newKey`; when
`oldKey` also has no (stale) expiry entry the final expiry table is exactly
the old one minus the entry of `newKey`. -/
theorem c10_rename_missing_old (st : DBState) (oldKey newKey : Str)
    (h1 : lookupA oldKey st.kv_store = none)
    (h2 : lookupA oldKey st.list_store = none)
    (h3 : lookupA oldKey st.hash_store = none) :
    (RedisDatabase.rename st oldKey newKey).1 = false ∧
    (RedisDatabase.rename st oldKey newKey).2 =
      { RedisDatabase.fastErase newKey st with
        expiry_map :=
          match lookupA oldKey (eraseA newKey st.expiry_map) with
          | some e => eraseA oldKey (insertA newKey e (eraseA newKey st.expiry_map))
          | none => eraseA newKey st.expiry_map } ∧
    (lookupA oldKey st.expiry_map = none →
      (RedisDatabase.rename st oldKey newKey).2.kv_store =
        (RedisDatabase.fastErase newKey st).kv_store ∧
      (RedisDatabase.rename st oldKey newKey).2.list_store =
        (RedisDatabase.fastErase newKey st).list_store ∧
      (RedisDatabase.rename st oldKey newKey).2.hash_store =
        (RedisDatabase.fastErase newKey st).hash_store ∧
      (RedisDatabase.rename st oldKey newKey).2.expiry_map =
        eraseA newKey st.expiry_map) := by
  have e1 : lookupA oldKey (RedisDatabase.fastErase newKey st).kv_store = none :=
    fastErase_kv_none newKey h1
  have e2 : lookupA oldKey (RedisDatabase.fastErase newKey st).list_store = none :=
    fastErase_list_none newKey h2
  have e3 : lookupA oldKey (RedisDatabase.fastErase newKey st).hash_store = none :=
    fastErase_hash_none newKey h3
  have hexp : (RedisDatabase.fastErase newKey st).expiry_map = st.expiry_map :=
    fastErase_expiry newKey st
  have hmain : RedisDatabase.rename st oldKey newKey =
      (false,
        { RedisDatabase.fastErase newKey st with
          expiry_map :=
            match lookupA oldKey (eraseA newKey st.expiry_map) with
            | some e => eraseA oldKey (insertA newKey e (eraseA newKey st.expiry_map))
            | none => eraseA newKey st.expiry_map }) := by
    unfold RedisDatabase.rename
    simp only [e1, e2, e3, hexp]
    rcases hm : lookupA oldKey (eraseA newKey st.expiry_map) with _ | e <;>
      simp only [hm] <;> rfl
  refine ⟨by rw [hmain], by rw [hmain], ?_⟩
  intro h4
  have h5 : lookupA oldKey (eraseA newKey st.expiry_map) = none :=
    lookupA_eraseA_of_none h4 newKey
  rw [hmain]
  simp [h5]

theorem c10_witness :
    (RedisDatabase.rename
      ⟨[], [("n".toList, ["x".toList])], [], [("n".toList, 900)], 0⟩
      "o".toList "n".toList).1 = false ∧
    (RedisDatabase.rename
      ⟨[], [("n".toList, ["x".toList])], [], [("n".toList, 900)], 0⟩
      "o".toList "n".toList).2.expiry_map = [] := by
  have h := c10_rename_missing_old
    ⟨[], [("n".toList, ["x".toList])], [], [("n".toList, 900)], 0⟩
    "o".toList "n".toList rfl rfl rfl
  exact ⟨h.1, (h.2.2 rfl).2.2.2⟩

/-! ## Claim C5: type exclusivity across the three stores -/

/-- A state is single-typed when every key is present in at most one of the
three type stores (the data-model invariant the spec asserts). -/
def singleTyped (st : DBState) : Prop :=
  ∀ k, (memA k st.kv_store = true →
          memA k st.list_store = false ∧ memA k st.hash_store = false) ∧
       (memA k st.list_store = true → memA k st.hash_store = false)

/-- Well-formedness of the three data stores as maps (distinct keys) plus
single-typedness. -/
def WFstores (st : DBState) : Prop :=
  nodupKeys st.kv_store ∧ nodupKeys st.list_store ∧ nodupKeys st.hash_store ∧ singleTyped st

theorem mem_fst_memA {β : Type} {k : Str} {l : List (Str × β)}
    (h : k ∈ l.map Prod.fst) : memA k l = true := by
  induction l with
  | nil => simp at h
  | cons p rest ih =>
    obtain ⟨k', v'⟩ := p
    by_cases h2 : k' = k
    · simp [memA, lookupA, h2]
    · rw [List.map_cons] at h
      rcases List.mem_cons.1 h with h3 | h3
    -- note: `Prod.fst (k', v') = k'` so the head case contradicts `h2`
      · exact absurd h3.symm h2
      · simpa [memA, lookupA, h2] using ih h3

theorem lookupA_mem_pair {β : Type} {k : Str} {v : β} {l : List (Str × β)}
    (h : lookupA k l = some v) : (k, v) ∈ l := by
  induction l with
  | nil => exact Option.noConfusion h
  | cons p rest ih =>
    obtain ⟨k', v'⟩ := p
    by_cases h2 : k' = k
    · subst h2
      have h3 : v' = v := by simpa [lookupA] using h
      subst h3
      exact List.mem_cons_self _ _
    · simp only [lookupA, if_neg h2] at h
      exact List.mem_cons_of_mem _ (ih h)

theorem memA_eraseA_le {β : Type} {j k : Str} {l : List (Str × β)}
    (h : memA k (eraseA j l) = true) : memA k l = true := by
  induction l with
  | nil => simpa [eraseA] using h
  | cons p rest ih =>
    obtain ⟨k', v'⟩ := p
    by_cases h2 : k' = j
    · rw [eraseA, if_pos h2] at h
      by_cases h3 : k' = k
      · simp [memA, lookupA, h3]
      · simp only [memA, lookupA, if_neg h3]
        exact h
    · rw [eraseA, if_neg h2] at h
      by_cases h3 : k' = k
      · simp [memA, lookupA, h3]
      · simp only [memA, lookupA, if_neg h3] at h ⊢
        exact ih h

theorem eraseA_map_fst_sublist {β : Type} (j : Str) (l : List (Str × β)) :
    List.Sublist ((eraseA j l).map Prod.fst) (l.map Prod.fst) := by
  induction l with
  | nil => simp [eraseA]
  | cons p rest ih =>
    obtain ⟨k', v'⟩ := p
    by_cases h2 : k' = j
    · simp only [eraseA, if_pos h2, List.map_cons]
      exact List.sublist_cons_of_sublist _ (List.Sublist.refl _)
    · simp only [eraseA, if_neg h2, List.map_cons]
      exact List.Sublist.cons₂ _ ih

theorem nodupKeys_eraseA {β : Type} {l : List (Str × β)} (h : nodupKeys l) (j : Str) :
    nodupKeys (eraseA j l) :=
  (eraseA_map_fst_sublist j l).nodup h

theorem singleTyped_fastErase {st : DBState} (h : singleTyped st) (j : Str) :
    singleTyped (RedisDatabase.fastErase j st) := by
  intro k
  unfold RedisDatabase.fastErase
  split_ifs with h1 h2 <;>
    refine ⟨fun hk => ?_, fun hk => ?_⟩
  · exact (h k).1 (memA_eraseA_le hk)
  · exact (h k).2 hk
  · rcases (h k).1 hk with ⟨hl, hh⟩
    constructor
    · rcases hm : memA k (eraseA j st.list_store) with _ | _
      · rfl
      · exact absurd (memA_eraseA_le hm) (by simp [hl])
    · exact hh
  · exact (h k).2 (memA_eraseA_le hk)
  · rcases (h k).1 hk with ⟨hl, hh⟩
    refine ⟨hl, ?_⟩
    rcases hm : memA k (eraseA j st.hash_store) with _ | _
    · rfl
    · exact absurd (memA_eraseA_le hm) (by simp [hh])
  · have hh := (h k).2 hk
    rcases hm : memA k (eraseA j st.hash_store) with _ | _
    · rfl
    · exact absurd (memA_eraseA_le hm) (by simp [hh])

theorem WFstores_fastErase {st : DBState} (h : WFstores st) (j : Str) :
    WFstores (RedisDatabase.fastErase j st) := by
  obtain ⟨h1, h2, h3, h4⟩ := h
  refine ⟨?_, ?_, ?_, singleTyped_fastErase h4 j⟩ <;>
    · unfold RedisDatabase.fastErase
      split_ifs <;> first | exact nodupKeys_eraseA (by assumption) j | assumption

/-- States reachable from the empty database through the public mutating
operations of `RedisDatabase` (the persistence pair `dump`/`load` excluded:
`dump` does not mutate, `load` replaces the state by file contents). -/
inductive Reachable : DBState → Prop where
  | empty : Reachable emptyDB
  | flushAll {st} : Reachable st → Reachable (RedisDatabase.flushAll st)
  | set {st} (k v : Str) : Reachable st → Reachable (RedisDatabase.set st k v)
  | get {st} (now : Nat) (k : Str) : Reachable st → Reachable (RedisDatabase.get now st k).2
  | del {st} (k : Str) : Reachable st → Reachable (RedisDatabase.del st k).2
  | keys {st} (now : Nat) : Reachable st → Reachable (RedisDatabase.keys now st).2
  | type {st} (now : Nat) (k : Str) : Reachable st → Reachable (RedisDatabase.type now st k).2
  | expire {st} (now : Nat) (k : Str) (s : Int) :
      Reachable st → Reachable (RedisDatabase.expire now st k s).2
  | rename {st} (a b : Str) : Reachable st → Reachable (RedisDatabase.rename st a b).2
  | lget {st} (now : Nat) (k : Str) : Reachable st → Reachable (RedisDatabase.lget now st k).2
  | llen {st} (now : Nat) (k : Str) : Reachable st → Reachable (RedisDatabase.llen now st k).2
  | lpush {st} (now : Nat) (k v : Str) : Reachable st → Reachable (RedisDatabase.lpush now st k v)
  | rpush {st} (now : Nat) (k v : Str) : Reachable st → Reachable (RedisDatabase.rpush now st k v)
  | lrem {st} (now : Nat) (k : Str) (c : Int) (v : Str) :
      Reachable st → Reachable (RedisDatabase.lrem now st k c v).2
  | lpop {st} (now : Nat) (k : Str) : Reachable st → Reachable (RedisDatabase.lpop now st k).2
  | rpop {st} (now : Nat) (k : Str) : Reachable st → Reachable (RedisDatabase.rpop now st k).2
  | lindex {st} (now : Nat) (k : Str) (i : Int) :
      Reachable st → Reachable (RedisDatabase.lindex now st k i).2
  | lset {st} (now : Nat) (k : Str) (i : Int) (v : Str) :
      Reachable st → Reachable (RedisDatabase.lset now st k i v).2
  | hset {st} (now : Nat) (k f v : Str) :
      Reachable st → Reachable (RedisDatabase.hset now st k f v).2
  | hget {st} (now : Nat) (k f : Str) : Reachable st → Reachable (RedisDatabase.hget now st k f).2
  | hexists {st} (now : Nat) (k f : Str) :
      Reachable st → Reachable (RedisDatabase.hexists now st k f).2
  | hdel {st} (now : Nat) (k f : Str) : Reachable st → Reachable (RedisDatabase.hdel now st k f).2
  | hgetall {st} (now : Nat) (k : Str) :
      Reachable st → Reachable (RedisDatabase.hgetall now st k).2
  | hkeys {st} (now : Nat) (k : Str) : Reachable st → Reachable (RedisDatabase.hkeys now st k).2
  | hvals {st} (now : Nat) (k : Str) : Reachable st → Reachable (RedisDatabase.hvals now st k).2
  | hlen {st} (now : Nat) (k : Str) : Reachable st → Reachable (RedisDatabase.hlen now st k).2
  | hmset {st} (now : Nat) (k : Str) (fv : List (Str × Str)) :
      Reachable st → Reachable (RedisDatabase.hmset now st k fv).2
  | incr {st} (now : Nat) (k : Str) : Reachable st → Reachable (RedisDatabase.incr now st k).2
  | purgeExpired {st} (now : Nat) : Reachable st → Reachable (RedisDatabase.purgeExpired_locked now st)

/-- Claim C5 states that in every state reachable through the public
operations each key lives in at most one type store.  The source contradicts
this: from the empty store, `set k v; lpush k x` leaves `k` both in the
string store and in the list store, because `lpush` (like `hset`) never
clears a value of another type. -/
theorem c5_counterexample :
    Reachable (RedisDatabase.lpush 0
      (RedisDatabase.set emptyDB "k".toList "v".toList) "k".toList "x".toList) ∧
    memA "k".toList (RedisDatabase.lpush 0
      (RedisDatabase.set emptyDB "k".toList "v".toList) "k".toList "x".toList).kv_store = true ∧
    memA "k".toList (RedisDatabase.lpush 0
      (RedisDatabase.set emptyDB "k".toList "v".toList) "k".toList "x".toList).list_store = true :=
  ⟨Reachable.lpush 0 "k".toList "x".toList
      (Reachable.set "k".toList "v".toList Reachable.empty),
    by rfl, by rfl⟩

/-- Claim C5, amended: a key may be present in several type stores at once; a
list write (`lpush`) or a hash write (`hset`) on a live key of another type
leaves the value of the other type in place, so the key ends up in both
stores. -/
theorem c5_type_overlap (st : DBState) (now : Nat) (k v f w : Str)
    (hlive : keyLive now st k) :
    ((RedisDatabase.lpush now st k v).kv_store = st.kv_store ∧
      (RedisDatabase.lpush now st k v).hash_store = st.hash_store ∧
      memA k (RedisDatabase.lpush now st k v).list_store = true) ∧
    ((RedisDatabase.hset now st k f w).2.kv_store = st.kv_store ∧
      (RedisDatabase.hset now st k f w).2.list_store = st.list_store ∧
      memA k (RedisDatabase.hset now st k f w).2.hash_store = true) := by
  have hc := checkExpired_live hlive
  constructor
  · unfold RedisDatabase.lpush
    rw [hc]
    exact ⟨rfl, rfl, by simp [memA, lookupA_upsertA_self]⟩
  · unfold RedisDatabase.hset
    rw [hc]
    exact ⟨rfl, rfl, by simp [memA, lookupA_upsertA_self]⟩

theorem c5_witness :
    ((RedisDatabase.lpush 7 (RedisDatabase.set emptyDB "k".toList "v".toList)
        "k".toList "x".toList).kv_store =
        (RedisDatabase.set emptyDB "k".toList "v".toList).kv_store ∧
      (RedisDatabase.lpush 7 (RedisDatabase.set emptyDB "k".toList "v".toList)
        "k".toList "x".toList).hash_store =
        (RedisDatabase.set emptyDB "k".toList "v".toList).hash_store ∧
      memA "k".toList (RedisDatabase.lpush 7
        (RedisDatabase.set emptyDB "k".toList "v".toList)
        "k".toList "x".toList).list_store = true) ∧
    ((RedisDatabase.hset 7 (RedisDatabase.set emptyDB "k".toList "v".toList)
        "k".toList "f".toList "w".toList).2.kv_store =
        (RedisDatabase.set emptyDB "k".toList "v".toList).kv_store ∧
      (RedisDatabase.hset 7 (RedisDatabase.set emptyDB "k".toList "v".toList)
        "k".toList "f".toList "w".toList).2.list_store =
        (RedisDatabase.set emptyDB "k".toList "v".toList).list_store ∧
      memA "k".toList (RedisDatabase.hset 7
        (RedisDatabase.set emptyDB "k".toList "v".toList)
        "k".toList "f".toList "w".toList).2.hash_store = true) :=
  c5_type_overlap (RedisDatabase.set emptyDB "k".toList "v".toList) 7
    "k".toList "x".toList "f".toList "w".toList
    (fun d hd => Option.noConfusion hd)

/-! ## Claim C6: does `keys()` always sweep first? -/

theorem purgeList_preserves_none (now : Nat) (entries : List (Str × Int)) {st : DBState}
    {k : Str}
    (h1 : lookupA k st.kv_store = none)
    (h2 : lookupA k st.list_store = none)
    (h3 : lookupA k st.hash_store = none) :
    lookupA k (RedisDatabase.purgeList now entries st).kv_store = none ∧
    lookupA k (RedisDatabase.purgeList now entries st).list_store = none ∧
    lookupA k (RedisDatabase.purgeList now entries st).hash_store = none := by
  induction entries generalizing st with
  | nil => exact ⟨h1, h2, h3⟩
  | cons p rest ih =>
    obtain ⟨j, e⟩ := p
    by_cases hexp : RedisDatabase.tp_expired now e = true
    · simp only [RedisDatabase.purgeList, hexp, if_true]
      exact ih (fastErase_kv_none j h1) (fastErase_list_none j h2) (fastErase_hash_none j h3)
    · simp only [RedisDatabase.purgeList, hexp, if_false]
      exact ih h1 h2 h3

theorem fastErase_all_none {st : DBState} (hw : WFstores st) (k : Str) :
    lookupA k (RedisDatabase.fastErase k st).kv_store = none ∧
    lookupA k (RedisDatabase.fastErase k st).list_store = none ∧
    lookupA k (RedisDatabase.fastErase k st).hash_store = none := by
  obtain ⟨hkv, hlist, hhash, hst⟩ := hw
  unfold RedisDatabase.fastErase
  split_ifs with h1 h2
  · exact ⟨lookupA_eraseA_self hkv k,
      (memA_false_iff _ _).1 ((hst k).1 h1).1,
      (memA_false_iff _ _).1 ((hst k).1 h1).2⟩
  · exact ⟨(memA_false_iff _ _).1 (by simpa using h1),
      lookupA_eraseA_self hlist k,
      (memA_false_iff _ _).1 ((hst k).2 h2)⟩
  · refine ⟨(memA_false_iff _ _).1 (by simpa using h1),
      (memA_false_iff _ _).1 (by simpa using h2), ?_⟩
    rcases hh : lookupA k st.hash_store with _ | v
    · exact lookupA_eraseA_of_none hh k
    · exact lookupA_eraseA_self hhash k

theorem purgeList_removes (now : Nat) (entries : List (Str × Int)) {st : DBState}
    {k : Str} {d : Int}
    (hw : WFstores st)
    (hmem : (k, d) ∈ entries)
    (hexp : RedisDatabase.tp_expired now d = true) :
    lookupA k (RedisDatabase.purgeList now entries st).kv_store = none ∧
    lookupA k (RedisDatabase.purgeList now entries st).list_store = none ∧
    lookupA k (RedisDatabase.purgeList now entries st).hash_store = none := by
  induction entries generalizing st with
  | nil => cases hmem
  | cons p rest ih =>
    obtain ⟨j, e⟩ := p
    rcases List.mem_cons.1 hmem with heq | hm
    · cases heq
      simp only [RedisDatabase.purgeList, hexp, if_true]
      have ha := fastErase_all_none hw k
      exact purgeList_preserves_none now rest ha.1 ha.2.1 ha.2.2
    · by_cases hexp2 : RedisDatabase.tp_expired now e = true
      · simp only [RedisDatabase.purgeList, hexp2, if_true]
        exact ih (WFstores_fastErase hw j) hm
      · simp only [RedisDatabase.purgeList, hexp2, if_false]
        exact ih hw hm

/-- Claim C6 states that every `keys()` call forces a full expiry sweep and
therefore never returns a key whose deadline has passed.  The source
contradicts this because the sweep is rate-limited: after `set k v` at time
0, `expire k 1` at 500 (deadline 1500) and a `keys` call at 1000 (which
sweeps and stamps `last_sweep = 1000`), a `keys` call at 1800 skips the
sweep (only 800 ms elapsed) and returns `k` although its deadline 1500 has
passed. -/
theorem c6_counterexample :
    "k".toList ∈
      (RedisDatabase.keys 1800
        ((RedisDatabase.keys 1000
          ((RedisDatabase.expire 500
            (RedisDatabase.set emptyDB "k".toList "v".toList) "k".toList 1).2)).2)).1 ∧
    lookupA "k".toList
      ((RedisDatabase.keys 1000
        ((RedisDatabase.expire 500
          (RedisDatabase.set emptyDB "k".toList "v".toList) "k".toList 1).2)).2).expiry_map =
      some 1500 ∧
    RedisDatabase.tp_expired 1800 1500 = true := by
  refine ⟨?_, ?_, ?_⟩ <;> decide

/-- Claim C6, amended: `keys()` only triggers a rate-limited sweep.  When
less than `SWEEP_INTERVAL` has elapsed since the last sweep it purges
nothing at all (so expired keys may be returned, as the counterexample
shows); when the interval has elapsed it sweeps first, and then no key
returned carries an already-passed deadline (for well-formed single-typed
states). -/
theorem c6_keys_cases (st : DBState) (now : Nat) :
    (now - st.last_sweep < RedisDatabase.SWEEP_INTERVAL →
      RedisDatabase.keys now st =
        (st.kv_store.map Prod.fst ++ st.list_store.map Prod.fst ++
          st.hash_store.map Prod.fst, st)) ∧
    (RedisDatabase.SWEEP_INTERVAL ≤ now - st.last_sweep → WFstores st →
      ∀ k, k ∈ (RedisDatabase.keys now st).1 →
        ∀ d, lookupA k st.expiry_map = some d → RedisDatabase.tp_expired now d = false) := by
  constructor
  · intro h
    simp [RedisDatabase.keys, RedisDatabase.maybeFullPurge, h]
  · intro hge hwf k hk d hd
    rcases he : RedisDatabase.tp_expired now d with _ | _
    · rfl
    · exfalso
      have hnot : ¬ now - st.last_sweep < RedisDatabase.SWEEP_INTERVAL := by omega
      rw [RedisDatabase.keys, RedisDatabase.maybeFullPurge] at hk
      simp only [if_neg hnot] at hk
      have hpair : (k, d) ∈ st.expiry_map := lookupA_mem_pair hd
      have habs := @purgeList_removes now st.expiry_map
        { st with last_sweep := now } k d hwf hpair he
      rw [RedisDatabase.purgeExpired_locked] at hk
      rcases List.mem_append.1 hk with hk1 | hk1
      · rcases List.mem_append.1 hk1 with hk2 | hk2
        · exact absurd (mem_fst_memA hk2) (by simp [memA, habs.1])
        · exact absurd (mem_fst_memA hk2) (by simp [memA, habs.2.1])
      · exact absurd (mem_fst_memA hk1) (by simp [memA, habs.2.2])

theorem c6_witness :
    (RedisDatabase.keys 500 (RedisDatabase.set emptyDB "k".toList "v".toList) =
      (["k".toList], RedisDatabase.set emptyDB "k".toList "v".toList)) ∧
    (∀ k, k ∈ (RedisDatabase.keys 2000
        ⟨[("k".toList, "v".toList)], [], [], [("k".toList, 1500)], 0⟩).1 →
      ∀ d, lookupA k
          (⟨[("k".toList, "v".toList)], [], [], [("k".toList, 1500)], 0⟩ :
            DBState).expiry_map = some d →
        RedisDatabase.tp_expired 2000 d = false) := by
  constructor
  · exact (c6_keys_cases (RedisDatabase.set emptyDB "k".toList "v".toList) 500).1
      (by decide)
  · exact (c6_keys_cases ⟨[("k".toList, "v".toList)], [], [], [("k".toList, 1500)], 0⟩
      2000).2 (by decide)
      (by
        refine ⟨?_, ?_, ?_, ?_⟩
        · show ([("k".toList, "v".toList)].map Prod.fst).Nodup
          decide
        · show (([] : List (Str × List Str)).map Prod.fst).Nodup
          decide
        · show (([] : List (Str × List (Str × Str))).map Prod.fst).Nodup
          decide
        · intro k
          exact ⟨fun _ => ⟨rfl, rfl⟩, fun _ => rfl⟩)

/-! ## Claim C3: SET with trailing EX/PX arguments -/

/-- Claim C3 states that the SET frame of the specification scenario
(`SET x 1 EX 1`) sets an expiry, so that a GET after the deadline returns
the nil bulk `$-1\r\n`.  The source contradicts this: `handleSet` ignores
everything after the value, no expiry is recorded, and the GET issued at
t = 2000 ms (deadline would have been 1000 ms) still returns the value. -/
theorem c3_counterexample :
    (RedisCommandHandler.processCommand
      "*5\r\n$3\r\nSET\r\n$1\r\nx\r\n$1\r\n1\r\n$2\r\nEX\r\n$1\r\n1\r\n".toList
      emptyDB 0).1 = "+OK\r\n".toList ∧
    (RedisCommandHandler.processCommand "*2\r\n$3\r\nGET\r\n$1\r\nx\r\n".toList
      (RedisCommandHandler.processCommand
        "*5\r\n$3\r\nSET\r\n$1\r\nx\r\n$1\r\n1\r\n$2\r\nEX\r\n$1\r\n1\r\n".toList
        emptyDB 0).2 2000).1 = "$1\r\n1\r\n".toList ∧
    "$1\r\n1\r\n".toList ≠ RedisCommandHandler.nilBulk := by
  refine ⟨?_, ?_, ?_⟩ <;> decide

/-- Claim C3, amended: a SET request with trailing `EX`/`PX` tokens replies
`+OK` but ignores the extra tokens entirely: the state change is exactly
`set k v`, the expiry table is untouched, and when `k` has no pre-existing
expiry entry a GET at any later time still returns the value, never the nil
bulk. -/
theorem c3_set_ignores_trailing (st : DBState) (now : Nat) (k v : Str) (extra : List Str) :
    RedisCommandHandler.processTokens ("SET".toList :: k :: v :: extra) st now =
      (RedisCommandHandler.simpleString "OK".toList, RedisDatabase.set st k v) ∧
    (RedisDatabase.set st k v).expiry_map = st.expiry_map ∧
    (lookupA k st.expiry_map = none → ∀ now2 : Nat,
      RedisCommandHandler.processTokens ["GET".toList, k] (RedisDatabase.set st k v) now2 =
        (RedisCommandHandler.bulkReply v, RedisDatabase.set st k v)) := by
  refine ⟨?_, rfl, ?_⟩
  · have hd : RedisCommandHandler.processTokens ("SET".toList :: k :: v :: extra) st now =
        RedisCommandHandler.handleSet ("SET".toList :: k :: v :: extra) st := rfl
    rw [hd]
    unfold RedisCommandHandler.handleSet
    rw [if_neg (by simp [List.length_cons])]
    rfl
  · intro hexp now2
    have hlive : keyLive now2 (RedisDatabase.set st k v) k := by
      intro d hd2
      have hd3 : lookupA k st.expiry_map = some d := hd2
      rw [hexp] at hd3
      exact Option.noConfusion hd3
    have hg : RedisDatabase.get now2 (RedisDatabase.set st k v) k =
        (some v, RedisDatabase.set st k v) := by
      unfold RedisDatabase.get
      rw [checkExpired_live hlive]
      simp [RedisDatabase.set, lookupA_insertA_self]
    have hd : RedisCommandHandler.processTokens ["GET".toList, k]
        (RedisDatabase.set st k v) now2 =
        RedisCommandHandler.handleGet ["GET".toList, k] (RedisDatabase.set st k v) now2 := rfl
    rw [hd]
    unfold RedisCommandHandler.handleGet
    rw [if_neg (by simp)]
    have ht : RedisCommandHandler.tokAt ["GET".toList, k] 1 = k := rfl
    rw [ht, hg]

theorem c3_witness :
    RedisCommandHandler.processTokens
      ["SET".toList, "x".toList, "1".toList, "EX".toList, "1".toList] emptyDB 0 =
      (RedisCommandHandler.simpleString "OK".toList,
        RedisDatabase.set emptyDB "x".toList "1".toList) ∧
    RedisCommandHandler.processTokens ["GET".toList, "x".toList]
      (RedisDatabase.set emptyDB "x".toList "1".toList) 2000 =
      (RedisCommandHandler.bulkReply "1".toList,
        RedisDatabase.set emptyDB "x".toList "1".toList) := by
  have h := c3_set_ignores_trailing emptyDB 0 "x".toList "1".toList
    ["EX".toList, "1".toList]
  exact ⟨h.1, h.2.2 rfl 2000⟩

/-! ## Claim C1: each frame dispatched exactly once? -/

/-- Claim C1 states that each complete RESP frame in the accumulated stream
is dispatched exactly once, one reply per frame.  The code violates it:
`handleClient` never erases the bytes consumed by `splitFrames` from
`buffer`, so when a second chunk arrives the first frame is parsed and
dispatched a second time.  Two received chunks each holding one `PING`
frame produce three `+PONG` replies, although the accumulated stream
contains exactly two complete frames. -/
theorem c1_duplicate_dispatch :
    (handleClient 0 ["*1\r\n$4\r\nPING\r\n".toList, "*1\r\n$4\r\nPING\r\n".toList]
      emptyDB).1 =
      ["+PONG\r\n".toList, "+PONG\r\n".toList, "+PONG\r\n".toList] ∧
    (RedisCommandHandler.splitFrames
      ("*1\r\n$4\r\nPING\r\n".toList ++ "*1\r\n$4\r\nPING\r\n".toList)).1.length = 2 := by
  refine ⟨?_, ?_⟩ <;> decide

/-! ## Claim C4: the dispatch table -/

theorem ne_unknown_of_head {r : Str}
    (h : r.head? ≠ RedisCommandHandler.unknownErr.head?) :
    r ≠ RedisCommandHandler.unknownErr := fun e => h (by rw [e])

theorem simpleString_ne_unknown (s : Str) :
    RedisCommandHandler.simpleString s ≠ RedisCommandHandler.unknownErr :=
  ne_unknown_of_head (by
    rw [show (RedisCommandHandler.simpleString s).head? = some '+' from rfl]
    decide)

theorem bulkReply_head (s : Str) : (RedisCommandHandler.bulkReply s).head? = some '$' := by
  unfold RedisCommandHandler.bulkReply
  split_ifs <;> rfl

theorem bulkReply_ne_unknown (s : Str) :
    RedisCommandHandler.bulkReply s ≠ RedisCommandHandler.unknownErr :=
  ne_unknown_of_head (by rw [bulkReply_head]; decide)

theorem nilBulk_ne_unknown : RedisCommandHandler.nilBulk ≠ RedisCommandHandler.unknownErr := by
  decide

theorem integerReply_ne_unknown (v : Int) :
    RedisCommandHandler.integerReply v ≠ RedisCommandHandler.unknownErr :=
  ne_unknown_of_head (by
    rw [show (RedisCommandHandler.integerReply v).head? = some ':' from rfl]
    decide)

theorem arrayReply_ne_unknown (n : Nat) (body : Str) :
    RedisCommandHandler.arrayHeader n ++ body ≠ RedisCommandHandler.unknownErr :=
  ne_unknown_of_head (by
    rw [show (RedisCommandHandler.arrayHeader n ++ body).head? = some '*' from rfl]
    decide)

theorem fst_pair_ne {b : DBState} {a : Str}
    (h : a ≠ RedisCommandHandler.unknownErr) :
    ((a, b) : Str × DBState).1 ≠ RedisCommandHandler.unknownErr := h

theorem hEcho_ne (t : List Str) :
    RedisCommandHandler.handleEcho t ≠ RedisCommandHandler.unknownErr := by
  unfold RedisCommandHandler.handleEcho
  split_ifs
  · decide
  · exact bulkReply_ne_unknown _

theorem hSet_ne (t : List Str) (st : DBState) :
    (RedisCommandHandler.handleSet t st).1 ≠ RedisCommandHandler.unknownErr := by
  unfold RedisCommandHandler.handleSet
  split_ifs
  · exact fst_pair_ne (by decide)
  · exact simpleString_ne_unknown _

theorem hGet_ne (t : List Str) (st : DBState) (now : Nat) :
    (RedisCommandHandler.handleGet t st now).1 ≠ RedisCommandHandler.unknownErr := by
  unfold RedisCommandHandler.handleGet
  split_ifs
  · exact fst_pair_ne (by decide)
  · split
    · exact bulkReply_ne_unknown _
    · exact nilBulk_ne_unknown

theorem hDel_ne (t : List Str) (st : DBState) :
    (RedisCommandHandler.handleDel t st).1 ≠ RedisCommandHandler.unknownErr := by
  unfold RedisCommandHandler.handleDel
  split_ifs
  · exact fst_pair_ne (by decide)
  · exact integerReply_ne_unknown _

theorem hFlushAll_ne (st : DBState) :
    (RedisCommandHandler.handleFlushAll st).1 ≠ RedisCommandHandler.unknownErr :=
  simpleString_ne_unknown _

theorem hKeys_ne (st : DBState) (now : Nat) :
    (RedisCommandHandler.handleKeys st now).1 ≠ RedisCommandHandler.unknownErr :=
  arrayReply_ne_unknown _ _

theorem hType_ne (t : List Str) (st : DBState) (now : Nat) :
    (RedisCommandHandler.handleType t st now).1 ≠ RedisCommandHandler.unknownErr := by
  unfold RedisCommandHandler.handleType
  split_ifs
  · exact fst_pair_ne (by decide)
  · exact simpleString_ne_unknown _

theorem hExpire_ne (t : List Str) (st : DBState) (now : Nat) :
    (RedisCommandHandler.handleExpire t st now).1 ≠ RedisCommandHandler.unknownErr := by
  unfold RedisCommandHandler.handleExpire
  split_ifs
  · exact fst_pair_ne (by decide)
  · split
    · exact fst_pair_ne (by decide)
    · split
      · exact simpleString_ne_unknown _
      · exact fst_pair_ne (by decide)

theorem hRename_ne (t : List Str) (st : DBState) :
    (RedisCommandHandler.handleRename t st).1 ≠ RedisCommandHandler.unknownErr := by
  unfold RedisCommandHandler.handleRename
  split_ifs
  · exact fst_pair_ne (by decide)
  · split
    · exact simpleString_ne_unknown _
    · exact fst_pair_ne (by decide)

theorem hLpush_ne (t : List Str) (st : DBState) (now : Nat) :
    (RedisCommandHandler.handleLpush t st now).1 ≠ RedisCommandHandler.unknownErr := by
  unfold RedisCommandHandler.handleLpush
  split_ifs
  · exact fst_pair_ne (by decide)
  · exact integerReply_ne_unknown _

theorem hRpush_ne (t : List Str) (st : DBState) (now : Nat) :
    (RedisCommandHandler.handleRpush t st now).1 ≠ RedisCommandHandler.unknownErr := by
  unfold RedisCommandHandler.handleRpush
  split_ifs
  · exact fst_pair_ne (by decide)
  · exact integerReply_ne_unknown _

theorem hLpop_ne (t : List Str) (st : DBState) (now : Nat) :
    (RedisCommandHandler.handleLpop t st now).1 ≠ RedisCommandHandler.unknownErr := by
  unfold RedisCommandHandler.handleLpop
  split_ifs
  · exact fst_pair_ne (by decide)
  · split
    · exact bulkReply_ne_unknown _
    · exact nilBulk_ne_unknown

theorem hRpop_ne (t : List Str) (st : DBState) (now : Nat) :
    (RedisCommandHandler.handleRpop t st now).1 ≠ RedisCommandHandler.unknownErr := by
  unfold RedisCommandHandler.handleRpop
  split_ifs
  · exact fst_pair_ne (by decide)
  · split
    · exact bulkReply_ne_unknown _
    · exact nilBulk_ne_unknown

theorem hLlen_ne (t : List Str) (st : DBState) (now : Nat) :
    (RedisCommandHandler.handleLlen t st now).1 ≠ RedisCommandHandler.unknownErr := by
  unfold RedisCommandHandler.handleLlen
  split_ifs
  · exact fst_pair_ne (by decide)
  · exact integerReply_ne_unknown _

theorem hLget_ne (t : List Str) (st : DBState) (now : Nat) :
    (RedisCommandHandler.handleLget t st now).1 ≠ RedisCommandHandler.unknownErr := by
  unfold RedisCommandHandler.handleLget
  split_ifs
  · exact fst_pair_ne (by decide)
  · exact arrayReply_ne_unknown _ _

theorem hLrem_ne (t : List Str) (st : DBState) (now : Nat) :
    (RedisCommandHandler.handleLrem t st now).1 ≠ RedisCommandHandler.unknownErr := by
  unfold RedisCommandHandler.handleLrem
  split_ifs
  · exact fst_pair_ne (by decide)
  · split
    · exact fst_pair_ne (by decide)
    · exact integerReply_ne_unknown _

theorem hLindex_ne (t : List Str) (st : DBState) (now : Nat) :
    (RedisCommandHandler.handleLindex t st now).1 ≠ RedisCommandHandler.unknownErr := by
  unfold RedisCommandHandler.handleLindex
  split_ifs
  · exact fst_pair_ne (by decide)
  · split
    · exact fst_pair_ne (by decide)
    · split
      · exact bulkReply_ne_unknown _
      · exact nilBulk_ne_unknown

theorem hLset_ne (t : List Str) (st : DBState) (now : Nat) :
    (RedisCommandHandler.handleLset t st now).1 ≠ RedisCommandHandler.unknownErr := by
  unfold RedisCommandHandler.handleLset
  split_ifs
  · exact fst_pair_ne (by decide)
  · split
    · exact fst_pair_ne (by decide)
    · split
      · exact simpleString_ne_unknown _
      · exact fst_pair_ne (by decide)

theorem hHset_ne (t : List Str) (st : DBState) (now : Nat) :
    (RedisCommandHandler.handleHset t st now).1 ≠ RedisCommandHandler.unknownErr := by
  unfold RedisCommandHandler.handleHset
  split_ifs
  · exact fst_pair_ne (by decide)
  · exact integerReply_ne_unknown _

theorem hHget_ne (t : List Str) (st : DBState) (now : Nat) :
    (RedisCommandHandler.handleHget t st now).1 ≠ RedisCommandHandler.unknownErr := by
  unfold RedisCommandHandler.handleHget
  split_ifs
  · exact fst_pair_ne (by decide)
  · split
    · exact bulkReply_ne_unknown _
    · exact nilBulk_ne_unknown

theorem hHexists_ne (t : List Str) (st : DBState) (now : Nat) :
    (RedisCommandHandler.handleHexists t st now).1 ≠ RedisCommandHandler.unknownErr := by
  unfold RedisCommandHandler.handleHexists
  split_ifs
  · exact fst_pair_ne (by decide)
  · exact integerReply_ne_unknown _

theorem hHdel_ne (t : List Str) (st : DBState) (now : Nat) :
    (RedisCommandHandler.handleHdel t st now).1 ≠ RedisCommandHandler.unknownErr := by
  unfold RedisCommandHandler.handleHdel
  split_ifs
  · exact fst_pair_ne (by decide)
  · exact integerReply_ne_unknown _

theorem hHgetall_ne (t : List Str) (st : DBState) (now : Nat) :
    (RedisCommandHandler.handleHgetall t st now).1 ≠ RedisCommandHandler.unknownErr := by
  unfold RedisCommandHandler.handleHgetall
  split_ifs
  · exact fst_pair_ne (by decide)
  · exact arrayReply_ne_unknown _ _

theorem hHkeys_ne (t : List Str) (st : DBState) (now : Nat) :
    (RedisCommandHandler.handleHkeys t st now).1 ≠ RedisCommandHandler.unknownErr := by
  unfold RedisCommandHandler.handleHkeys
  split_ifs
  · exact fst_pair_ne (by decide)
  · exact arrayReply_ne_unknown _ _

theorem hHvals_ne (t : List Str) (st : DBState) (now : Nat) :
    (RedisCommandHandler.handleHvals t st now).1 ≠ RedisCommandHandler.unknownErr := by
  unfold RedisCommandHandler.handleHvals
  split_ifs
  · exact fst_pair_ne (by decide)
  · exact arrayReply_ne_unknown _ _

theorem hHlen_ne (t : List Str) (st : DBState) (now : Nat) :
    (RedisCommandHandler.handleHlen t st now).1 ≠ RedisCommandHandler.unknownErr := by
  unfold RedisCommandHandler.handleHlen
  split_ifs
  · exact fst_pair_ne (by decide)
  · exact integerReply_ne_unknown _

theorem hHmset_ne (t : List Str) (st : DBState) (now : Nat) :
    (RedisCommandHandler.handleHmset t st now).1 ≠ RedisCommandHandler.unknownErr := by
  unfold RedisCommandHandler.handleHmset
  split_ifs
  · exact fst_pair_ne (by decide)
  · exact simpleString_ne_unknown _

/-- The commands the dispatcher of `processCommand` actually recognizes:
the specification list minus `TTL`, `INCR` and `LRANGE`. -/
def recognizedCmds : List Str :=
  ["PING".toList, "ECHO".toList, "SET".toList, "GET".toList, "DEL".toList,
   "UNLINK".toList, "FLUSHALL".toList, "KEYS".toList, "TYPE".toList,
   "EXPIRE".toList, "RENAME".toList, "LPUSH".toList, "RPUSH".toList,
   "LPOP".toList, "RPOP".toList, "LLEN".toList, "LGET".toList, "LREM".toList,
   "LINDEX".toList, "LSET".toList, "HSET".toList, "HGET".toList,
   "HEXISTS".toList, "HDEL".toList, "HGETALL".toList, "HKEYS".toList,
   "HVALS".toList, "HLEN".toList, "HMSET".toList]

/-- Claim C4 states that the dispatcher recognizes every command of the
specification list, in particular `TTL`, `INCR` and `LRANGE`.  The source
contradicts this: well-formed `TTL`, `INCR` and `LRANGE` requests all
produce the unknown-command error. -/
theorem c4_counterexample :
    (RedisCommandHandler.processTokens ["TTL".toList, "k".toList] emptyDB 0).1 =
      RedisCommandHandler.unknownErr ∧
    (RedisCommandHandler.processTokens ["INCR".toList, "k".toList] emptyDB 0).1 =
      RedisCommandHandler.unknownErr ∧
    (RedisCommandHandler.processTokens
      ["LRANGE".toList, "k".toList, "0".toList, "-1".toList] emptyDB 0).1 =
      RedisCommandHandler.unknownErr := by
  refine ⟨?_, ?_, ?_⟩ <;> decide

set_option maxHeartbeats 1000000 in
/-- Claim C4, amended: the dispatcher recognizes exactly the commands of
`recognizedCmds` (the specification list minus `TTL`, `INCR`, `LRANGE`): a
request whose uppercased first token is in that list never yields the
unknown-command error, and every other first token (including `TTL`, `INCR`
and `LRANGE`) yields exactly the unknown-command error. -/
theorem c4_dispatch_table (t0 : Str) (rest : List Str) (st : DBState) (now : Nat) :
    (RedisCommandHandler.processTokens (t0 :: rest) st now).1 =
        RedisCommandHandler.unknownErr ↔
      RedisCommandHandler.upperStr t0 ∉ recognizedCmds := by
  have hstep : RedisCommandHandler.processTokens (t0 :: rest) st now =
      RedisCommandHandler.dispatch (RedisCommandHandler.upperStr t0) (t0 :: rest) st now := rfl
  rw [hstep]
  generalize hc : RedisCommandHandler.upperStr t0 = cmd
  unfold RedisCommandHandler.dispatch
  by_cases h1 : cmd = "PING".toList
  · rw [if_pos h1]
    exact iff_of_false (simpleString_ne_unknown _) (by rw [h1]; decide)
  rw [if_neg h1]
  by_cases h2 : cmd = "ECHO".toList
  · rw [if_pos h2]
    exact iff_of_false (hEcho_ne _) (by rw [h2]; decide)
  rw [if_neg h2]
  by_cases h3 : cmd = "SET".toList
  · rw [if_pos h3]
    exact iff_of_false (hSet_ne _ _) (by rw [h3]; decide)
  rw [if_neg h3]
  by_cases h4 : cmd = "GET".toList
  · rw [if_pos h4]
    exact iff_of_false (hGet_ne _ _ _) (by rw [h4]; decide)
  rw [if_neg h4]
  by_cases h5 : (decide (cmd = "DEL".toList) || decide (cmd = "UNLINK".toList)) = true
  · rw [if_pos h5]
    refine iff_of_false (hDel_ne _ _) ?_
    simp only [decide_eq_true_eq, Bool.or_eq_true] at h5
    rcases h5 with h | h <;> rw [h] <;> decide
  rw [if_neg h5]
  by_cases h6 : cmd = "FLUSHALL".toList
  · rw [if_pos h6]
    exact iff_of_false (hFlushAll_ne _) (by rw [h6]; decide)
  rw [if_neg h6]
  by_cases h7 : cmd = "KEYS".toList
  · rw [if_pos h7]
    exact iff_of_false (hKeys_ne _ _) (by rw [h7]; decide)
  rw [if_neg h7]
  by_cases h8 : cmd = "TYPE".toList
  · rw [if_pos h8]
    exact iff_of_false (hType_ne _ _ _) (by rw [h8]; decide)
  rw [if_neg h8]
  by_cases h9 : cmd = "EXPIRE".toList
  · rw [if_pos h9]
    exact iff_of_false (hExpire_ne _ _ _) (by rw [h9]; decide)
  rw [if_neg h9]
  by_cases h10 : cmd = "RENAME".toList
  · rw [if_pos h10]
    exact iff_of_false (hRename_ne _ _) (by rw [h10]; decide)
  rw [if_neg h10]
  by_cases h11 : cmd = "LPUSH".toList
  · rw [if_pos h11]
    exact iff_of_false (hLpush_ne _ _ _) (by rw [h11]; decide)
  rw [if_neg h11]
  by_cases h12 : cmd = "RPUSH".toList
  · rw [if_pos h12]
    exact iff_of_false (hRpush_ne _ _ _) (by rw [h12]; decide)
  rw [if_neg h12]
  by_cases h13 : cmd = "LPOP".toList
  · rw [if_pos h13]
    exact iff_of_false (hLpop_ne _ _ _) (by rw [h13]; decide)
  rw [if_neg h13]
  by_cases h14 : cmd = "RPOP".toList
  · rw [if_pos h14]
    exact iff_of_false (hRpop_ne _ _ _) (by rw [h14]; decide)
  rw [if_neg h14]
  by_cases h15 : cmd = "LLEN".toList
  · rw [if_pos h15]
    exact iff_of_false (hLlen_ne _ _ _) (by rw [h15]; decide)
  rw [if_neg h15]
  by_cases h16 : cmd = "LGET".toList
  · rw [if_pos h16]
    exact iff_of_false (hLget_ne _ _ _) (by rw [h16]; decide)
  rw [if_neg h16]
  by_cases h17 : cmd = "LREM".toList
  · rw [if_pos h17]
    exact iff_of_false (hLrem_ne _ _ _) (by rw [h17]; decide)
  rw [if_neg h17]
  by_cases h18 : cmd = "LINDEX".toList
  · rw [if_pos h18]
    exact iff_of_false (hLindex_ne _ _ _) (by rw [h18]; decide)
  rw [if_neg h18]
  by_cases h19 : cmd = "LSET".toList
  · rw [if_pos h19]
    exact iff_of_false (hLset_ne _ _ _) (by rw [h19]; decide)
  rw [if_neg h19]
  by_cases h20 : cmd = "HSET".toList
  · rw [if_pos h20]
    exact iff_of_false (hHset_ne _ _ _) (by rw [h20]; decide)
  rw [if_neg h20]
  by_cases h21 : cmd = "HGET".toList
  · rw [if_pos h21]
    exact iff_of_false (hHget_ne _ _ _) (by rw [h21]; decide)
  rw [if_neg h21]
  by_cases h22 : cmd = "HEXISTS".toList
  · rw [if_pos h22]
    exact iff_of_false (hHexists_ne _ _ _) (by rw [h22]; decide)
  rw [if_neg h22]
  by_cases h23 : cmd = "HDEL".toList
  · rw [if_pos h23]
    exact iff_of_false (hHdel_ne _ _ _) (by rw [h23]; decide)
  rw [if_neg h23]
  by_cases h24 : cmd = "HGETALL".toList
  · rw [if_pos h24]
    exact iff_of_false (hHgetall_ne _ _ _) (by rw [h24]; decide)
  rw [if_neg h24]
  by_cases h25 : cmd = "HKEYS".toList
  · rw [if_pos h25]
    exact iff_of_false (hHkeys_ne _ _ _) (by rw [h25]; decide)
  rw [if_neg h25]
  by_cases h26 : cmd = "HVALS".toList
  · rw [if_pos h26]
    exact iff_of_false (hHvals_ne _ _ _) (by rw [h26]; decide)
  rw [if_neg h26]
  by_cases h27 : cmd = "HLEN".toList
  · rw [if_pos h27]
    exact iff_of_false (hHlen_ne _ _ _) (by rw [h27]; decide)
  rw [if_neg h27]
  by_cases h28 : cmd = "HMSET".toList
  · rw [if_pos h28]
    exact iff_of_false (hHmset_ne _ _ _) (by rw [h28]; decide)
  rw [if_neg h28]
  refine iff_of_true rfl ?_
  intro hmem
  simp only [recognizedCmds, List.mem_cons, List.not_mem_nil, or_false] at hmem
  rcases hmem with h | h | h | h | h | h | h | h | h | h | h | h | h | h | h | h | h | h | h | h | h | h | h | h | h | h | h | h | h
  · exact h1 h
  · exact h2 h
  · exact h3 h
  · exact h4 h
  · exact h5 (by rw [h]; decide)
  · exact h5 (by rw [h]; decide)
  · exact h6 h
  · exact h7 h
  · exact h8 h
  · exact h9 h
  · exact h10 h
  · exact h11 h
  · exact h12 h
  · exact h13 h
  · exact h14 h
  · exact h15 h
  · exact h16 h
  · exact h17 h
  · exact h18 h
  · exact h19 h
  · exact h20 h
  · exact h21 h
  · exact h22 h
  · exact h23 h
  · exact h24 h
  · exact h25 h
  · exact h26 h
  · exact h27 h
  · exact h28 h
theorem c4_witness :
    ((RedisCommandHandler.processTokens ["LLEN".toList, "k".toList] emptyDB 0).1 =
        RedisCommandHandler.unknownErr ↔
      RedisCommandHandler.upperStr "LLEN".toList ∉ recognizedCmds) ∧
    ((RedisCommandHandler.processTokens ["TTL".toList, "k".toList] emptyDB 0).1 =
        RedisCommandHandler.unknownErr ↔
      RedisCommandHandler.upperStr "TTL".toList ∉ recognizedCmds) :=
  ⟨c4_dispatch_table "LLEN".toList ["k".toList] emptyDB 0,
    c4_dispatch_table "TTL".toList ["k".toList] emptyDB 0⟩

/-! ## Claim C8: the framer

The framer contract of the specification: appending received chunks to the
framer buffer, collecting the complete frames returned after each append and
leaving the unconsumed residual in the buffer.  `splitFrames` returns the
frames together with the final `pos` (the number of consumed bytes), so the
buffer keeps `buf.drop pos`. -/

def framerRun (chunks : List Str) : List Str × Str :=
  chunks.foldl
    (fun (acc : List Str × Str) c =>
      let buf := acc.2 ++ c
      let r := RedisCommandHandler.splitFrames buf
      (acc.1 ++ r.1, buf.drop r.2))
    ([], [])

/-- The RESP encoding of one bulk string, `$<len>\r\n<bytes>\r\n`. -/
def encBulk (b : Str) : Str := '$' :: natChars b.length ++ CRLF ++ b ++ CRLF

/-- The RESP encoding of one multi-bulk frame, `*<n>\r\n` followed by the
bulks. -/
def encFrame (bs : List Str) : Str :=
  '*' :: natChars bs.length ++ CRLF ++ (bs.map encBulk).flatten

/-- The specification limits on one frame: at most 1 000 000 bulks of at most
512 MiB each. -/
def FrameLimits (bs : List Str) : Prop :=
  bs.length ≤ 1000000 ∧ ∀ b ∈ bs, b.length ≤ 512 * 2 ^ 20

/-- A possible trailing fragment of the stream: empty, or a proper prefix of
one valid frame (a truncated frame). -/
def TailOk (t : Str) : Prop :=
  t = [] ∨ ∃ cs m, FrameLimits cs ∧ m < (encFrame cs).length ∧ t = (encFrame cs).take m

/-! ### Digit and decimal-rendering facts -/

theorem toNat_digitChar {d : Nat} (h : d < 10) : (digitChar d).toNat = 48 + d := by
  interval_cases d <;> decide

theorem isDigitChar_digitChar {d : Nat} (h : d < 10) : isDigitChar (digitChar d) = true := by
  simp [isDigitChar, toNat_digitChar h]
  omega

theorem natChars_all_digits (n : Nat) : ∀ c ∈ natChars n, isDigitChar c = true := by
  induction n using Nat.strong_induction_on with
  | _ n ih =>
    rw [natChars_eq]
    by_cases h : n < 10
    · simp only [if_pos h, List.mem_singleton]
      rintro c rfl
      exact isDigitChar_digitChar h
    · simp only [if_neg h, List.mem_append, List.mem_singleton]
      rintro c (hc | rfl)
      · exact ih (n / 10) (Nat.div_lt_self (by omega) (by omega)) c hc
      · exact isDigitChar_digitChar (Nat.mod_lt _ (by omega))

theorem natChars_ne_nil (n : Nat) : natChars n ≠ [] := by
  rw [natChars_eq]
  by_cases h : n < 10 <;> simp [h]

theorem natChars_length_le (n : Nat) : (natChars n).length ≤ n + 1 := by
  induction n using Nat.strong_induction_on with
  | _ n ih =>
    rw [natChars_eq]
    by_cases h : n < 10
    · simp [h]
    · have := ih (n / 10) (Nat.div_lt_self (by omega) (by omega))
      simp only [if_neg h, List.length_append, List.length_singleton]
      omega

theorem digit_ne_cr {c : Char} (h : isDigitChar c = true) : c ≠ '\r' := by
  rintro rfl
  simp [isDigitChar] at h

theorem digit_not_space {c : Char} (h : isDigitChar c = true) : isSpaceChar c = false := by
  rcases hs : isSpaceChar c with _ | _
  · rfl
  · exfalso
    simp only [isSpaceChar, Bool.or_eq_true, decide_eq_true_eq] at hs
    simp only [isDigitChar, Bool.and_eq_true, decide_eq_true_eq] at h
    rcases hs with ((((h1 | h1) | h1) | h1) | h1) | h1 <;> subst h1 <;>
      revert h <;> decide

theorem digit_ne_minus {c : Char} (h : isDigitChar c = true) : c ≠ '-' := by
  rintro rfl
  simp [isDigitChar] at h

theorem digit_ne_plus {c : Char} (h : isDigitChar c = true) : c ≠ '+' := by
  rintro rfl
  simp [isDigitChar] at h

/-! ### CRLF search facts -/

theorem crlfIdx_here (z : Str) : crlfIdx ('\r' :: '\n' :: z) = some 0 := by
  simp [crlfIdx]

theorem crlfIdx_no_cr_append {s : Str} (h : ∀ c ∈ s, c ≠ '\r') (z : Str) :
    crlfIdx (s ++ '\r' :: '\n' :: z) = some s.length := by
  induction s with
  | nil => simpa using crlfIdx_here z
  | cons c s ih =>
    have hc : c ≠ '\r' := h c (List.mem_cons_self _ _)
    rw [List.cons_append, crlfIdx, if_neg (by rintro ⟨rfl, _⟩; exact hc rfl)]
    rw [ih (fun d hd => h d (List.mem_cons_of_mem _ hd))]
    rfl

theorem crlfIdx_none_no_cr {s : Str} (h : ∀ c ∈ s, c ≠ '\r') : crlfIdx s = none := by
  induction s with
  | nil => rfl
  | cons c s ih =>
    have hc : c ≠ '\r' := h c (List.mem_cons_self _ _)
    rw [crlfIdx, if_neg (by rintro ⟨rfl, _⟩; exact hc rfl)]
    rw [ih (fun d hd => h d (List.mem_cons_of_mem _ hd))]
    rfl

theorem crlfIdx_none_append_cr {s : Str} (h : ∀ c ∈ s, c ≠ '\r') :
    crlfIdx (s ++ ['\r']) = none := by
  induction s with
  | nil => rfl
  | cons c s ih =>
    have hc : c ≠ '\r' := h c (List.mem_cons_self _ _)
    rw [List.cons_append, crlfIdx, if_neg (by rintro ⟨rfl, _⟩; exact hc rfl)]
    rw [ih (fun d hd => h d (List.mem_cons_of_mem _ hd))]
    rfl

theorem digits_no_cr {s : Str} (h : ∀ c ∈ s, isDigitChar c = true) : ∀ c ∈ s, c ≠ '\r' :=
  fun c hc => digit_ne_cr (h c hc)

/-! ### Decimal parsing of rendered numbers -/

theorem readDigits_append {s : Str} (t : Str) (acc : Nat)
    (h2 : (readDigits acc s).2 = []) :
    readDigits acc (s ++ t) = readDigits (readDigits acc s).1 t := by
  induction s generalizing acc with
  | nil => rfl
  | cons c s ih =>
    by_cases hc : isDigitChar c = true
    · rw [List.cons_append, readDigits, if_pos hc]
      rw [readDigits, if_pos hc] at h2 ⊢
      exact ih _ h2
    · rw [readDigits, if_neg hc] at h2
      exact absurd h2 (by simp)

theorem readDigits_natChars (n : Nat) (acc : Nat) :
    readDigits acc (natChars n) = (acc * 10 ^ (natChars n).length + n, []) := by
  induction n using Nat.strong_induction_on generalizing acc with
  | _ n ih =>
    by_cases h : n < 10
    · rw [natChars_eq, if_pos h, readDigits, if_pos (isDigitChar_digitChar h),
        toNat_digitChar h]
      simp only [readDigits, List.length_singleton, pow_one, Prod.mk.injEq]
      exact ⟨by omega, trivial⟩
    · have hrec := ih (n / 10) (Nat.div_lt_self (by omega) (by omega))
      have hsplit : natChars n = natChars (n / 10) ++ [digitChar (n % 10)] := by
        rw [natChars_eq, if_neg h]
      rw [hsplit, readDigits_append _ acc (by rw [hrec acc]), hrec acc]
      have hd : n % 10 < 10 := Nat.mod_lt _ (by omega)
      rw [readDigits, if_pos (isDigitChar_digitChar hd), toNat_digitChar hd]
      simp only [readDigits, List.length_append, List.length_singleton, Prod.mk.injEq]
      refine ⟨?_, trivial⟩
      rw [pow_succ]
      have e : (acc * 10 ^ (natChars (n / 10)).length + n / 10) * 10 =
          acc * (10 ^ (natChars (n / 10)).length * 10) + n / 10 * 10 := by ring
      rw [e]
      omega

theorem dropWhile_space_digits {s : Str} (h : ∀ c ∈ s, isDigitChar c = true) :
    s.dropWhile isSpaceChar = s := by
  cases s with
  | nil => rfl
  | cons c s =>
    rw [List.dropWhile_cons]
    rw [digit_not_space (h c (List.mem_cons_self _ _))]
    simp

theorem stripSign_digit {c : Char} {s : Str} (hc : isDigitChar c = true) :
    stripSign (c :: s) = (false, c :: s) := by
  unfold stripSign
  split
  · next r heq =>
    have h1 : c = '-' ∧ s = r := by simpa using heq
    exact absurd h1.1 (digit_ne_minus hc)
  · next r heq =>
    have h1 : c = '+' ∧ s = r := by simpa using heq
    exact absurd h1.1 (digit_ne_plus hc)
  · rfl

theorem stoiChars_natChars {n : Nat} (h : n ≤ 2 ^ 31 - 1) :
    stoiChars (natChars n) = some (n : Int) := by
  unfold stoiChars parseSigned
  rcases hn : natChars n with _ | ⟨c, s⟩
  · exact absurd hn (natChars_ne_nil n)
  · have hall : ∀ d ∈ (c :: s : Str), isDigitChar d = true := by
      rw [← hn]; exact natChars_all_digits n
    have hc : isDigitChar c = true := hall c (List.mem_cons_self _ _)
    have hread : readDigits 0 (c :: s) = (n, []) := by
      rw [← hn, readDigits_natChars n 0]
      simp
    rw [dropWhile_space_digits hall, stripSign_digit hc]
    simp only [if_pos hc, hread]
    unfold signClamp
    rw [if_neg (by push_cast; omega)]
    simp

/-! ### Arithmetic of `size_t` positions -/

theorem castSizeT_coe (n : Nat) (h : n < U64) : castSizeT (n : Int) = n := by
  unfold castSizeT
  have h2 : (n : Int).emod (U64 : Int) = (n : Int) :=
    Int.emod_eq_of_lt (by omega) (by exact_mod_cast h)
  rw [h2]
  simp

/-! ### Parsing one encoded bulk -/

theorem encBulk_decomp (b rest : Str) :
    encBulk b ++ rest =
      '$' :: (natChars b.length ++ '\r' :: '\n' :: (b ++ '\r' :: '\n' :: rest)) := by
  simp [encBulk, CRLF]

theorem encBulk_length (b : Str) :
    (encBulk b).length = (natChars b.length).length + b.length + 5 := by
  simp [encBulk, CRLF]
  omega

theorem parseBulksAt_cons (pre b rest : Str) (count : Nat)
    (hb : b.length ≤ 512 * 2 ^ 20)
    (hsz : pre.length + (encBulk b).length + rest.length ≤ 2 ^ 62) :
    RedisCommandHandler.parseBulksAt (pre ++ (encBulk b ++ rest)) (count + 1) pre.length =
      RedisCommandHandler.parseBulksAt (pre ++ (encBulk b ++ rest)) count
        (pre.length + (encBulk b).length) := by
  set Ld := (natChars b.length).length with hLd
  have hdec : encBulk b ++ rest =
      '$' :: (natChars b.length ++ '\r' :: '\n' :: (b ++ '\r' :: '\n' :: rest)) :=
    encBulk_decomp b rest
  have hget : (pre ++ (encBulk b ++ rest)).get? pre.length = some '$' := by
    rw [List.get?_append_right (Nat.le_refl _), Nat.sub_self, hdec]
    rfl
  have hdrop : (pre ++ (encBulk b ++ rest)).drop (pre.length + 1) =
      natChars b.length ++ '\r' :: '\n' :: (b ++ '\r' :: '\n' :: rest) := by
    rw [hdec]
    have : pre ++ '$' :: (natChars b.length ++ '\r' :: '\n' :: (b ++ '\r' :: '\n' :: rest)) =
        (pre ++ ['$']) ++ (natChars b.length ++ '\r' :: '\n' :: (b ++ '\r' :: '\n' :: rest)) := by
      simp
    rw [this]
    have hl : pre.length + 1 = (pre ++ ['$']).length := by simp
    rw [hl, List.drop_left]
  have hfind : findCRLF (pre ++ (encBulk b ++ rest)) (pre.length + 1) =
      some (pre.length + 1 + Ld) := by
    unfold findCRLF
    rw [hdrop, crlfIdx_no_cr_append (digits_no_cr (natChars_all_digits _))]
    simp [hLd]
    omega
  have hsub : substr (pre ++ (encBulk b ++ rest)) (pre.length + 1)
      (pre.length + 1 + Ld - (pre.length + 1)) = natChars b.length := by
    unfold substr
    rw [hdrop]
    have : pre.length + 1 + Ld - (pre.length + 1) = Ld := by omega
    rw [this, hLd, List.take_left]
  have hstoi : stoiChars (natChars b.length) = some (b.length : Int) :=
    stoiChars_natChars (by omega)
  have hcast : castSizeT (b.length : Int) = b.length :=
    castSizeT_coe _ (by unfold U64; omega)
  have hraw : pre.length + 1 + Ld + 2 + b.length + 2 = pre.length + (encBulk b).length := by
    rw [encBulk_length]
    omega
  have hmod : (pre.length + 1 + Ld + 2 + b.length + 2) % U64 =
      pre.length + (encBulk b).length := by
    rw [hraw]
    exact Nat.mod_eq_of_lt (by unfold U64; omega)
  have hle : ¬ pre.length + (encBulk b).length > (pre ++ (encBulk b ++ rest)).length := by
    simp only [List.length_append]
    omega
  simp only [RedisCommandHandler.parseBulksAt]
  rw [hget]
  simp only [hfind, hsub, hstoi, hcast]
  rw [if_neg (by simp)]
  simp only [hmod]
  rw [if_neg hle]

theorem parseBulksAt_enc (bs : List Str) (pre rest : Str)
    (hb : ∀ b ∈ bs, b.length ≤ 512 * 2 ^ 20)
    (hsz : pre.length + ((bs.map encBulk).flatten).length + rest.length ≤ 2 ^ 62) :
    RedisCommandHandler.parseBulksAt (pre ++ ((bs.map encBulk).flatten ++ rest))
        bs.length pre.length =
      some (pre.length + ((bs.map encBulk).flatten).length) := by
  induction bs generalizing pre with
  | nil => simp [RedisCommandHandler.parseBulksAt]
  | cons b bs ih =>
    have hflat : ((b :: bs).map encBulk).flatten =
        encBulk b ++ (bs.map encBulk).flatten := by simp
    have hb1 : b.length ≤ 512 * 2 ^ 20 := hb b (List.mem_cons_self _ _)
    have hsz0 : pre.length + ((encBulk b).length + ((bs.map encBulk).flatten).length) +
        rest.length ≤ 2 ^ 62 := by
      rw [hflat] at hsz
      simpa using hsz
    have hassoc : pre ++ (((b :: bs).map encBulk).flatten ++ rest) =
        pre ++ (encBulk b ++ ((bs.map encBulk).flatten ++ rest)) := by
      rw [hflat]
      simp
    rw [hassoc, List.length_cons]
    rw [parseBulksAt_cons pre b ((bs.map encBulk).flatten ++ rest) bs.length hb1
      (by simp only [List.length_append]; omega)]
    have hassoc2 : pre ++ (encBulk b ++ ((bs.map encBulk).flatten ++ rest)) =
        (pre ++ encBulk b) ++ ((bs.map encBulk).flatten ++ rest) := by simp
    have hlen : pre.length + (encBulk b).length = (pre ++ encBulk b).length := by simp
    rw [hassoc2, hlen]
    rw [ih (pre ++ encBulk b) (fun x hx => hb x (List.mem_cons_of_mem _ hx))
      (by simp only [List.length_append]; omega)]
    rw [hflat]
    simp only [List.length_append, Option.some.injEq]
    omega

/-! ### Parsing one encoded frame -/

theorem encFrame_decomp (bs : List Str) :
    encFrame bs =
      '*' :: (natChars bs.length ++ '\r' :: '\n' :: (bs.map encBulk).flatten) := by
  simp [encFrame, CRLF]

theorem encFrame_length (bs : List Str) :
    (encFrame bs).length =
      (natChars bs.length).length + 3 + ((bs.map encBulk).flatten).length := by
  rw [encFrame_decomp]
  simp
  omega

theorem splitLoop_frame (pre rest : List Char) (acc : List Str) (bs : List Str) (fuel : Nat)
    (hlim : FrameLimits bs)
    (hsz : (pre ++ (encFrame bs ++ rest)).length ≤ 2 ^ 62) :
    RedisCommandHandler.splitLoop (pre ++ (encFrame bs ++ rest)) (fuel + 1) pre.length acc =
      RedisCommandHandler.splitLoop (pre ++ (encFrame bs ++ rest)) fuel
        (pre.length + (encFrame bs).length) (acc ++ [encFrame bs]) := by
  obtain ⟨hn, hb⟩ := hlim
  have hdec : encFrame bs ++ rest =
      '*' :: (natChars bs.length ++ '\r' :: '\n' :: ((bs.map encBulk).flatten ++ rest)) := by
    rw [encFrame_decomp]
    simp
  have hget : (pre ++ (encFrame bs ++ rest)).get? pre.length = some '*' := by
    rw [List.get?_append_right (Nat.le_refl _), Nat.sub_self, hdec]
    rfl
  have hdropz : (pre ++ (encFrame bs ++ rest)).drop pre.length = encFrame bs ++ rest :=
    List.drop_left pre _
  have hfind : findCRLF (pre ++ (encFrame bs ++ rest)) pre.length =
      some (pre.length + (1 + (natChars bs.length).length)) := by
    unfold findCRLF
    rw [hdropz, hdec]
    rw [show ('*' :: (natChars bs.length ++ '\r' :: '\n' :: ((bs.map encBulk).flatten ++ rest))) =
      ('*' :: natChars bs.length) ++ '\r' :: '\n' :: ((bs.map encBulk).flatten ++ rest)
      from by simp]
    rw [crlfIdx_no_cr_append]
    · simp
      omega
    · intro c hc
      rcases List.mem_cons.1 hc with rfl | hc2
      · decide
      · exact digit_ne_cr (natChars_all_digits bs.length c hc2)
  have hdrop1 : (pre ++ (encFrame bs ++ rest)).drop (pre.length + 1) =
      natChars bs.length ++ '\r' :: '\n' :: ((bs.map encBulk).flatten ++ rest) := by
    rw [hdec]
    rw [show pre ++ '*' ::
        (natChars bs.length ++ '\r' :: '\n' :: ((bs.map encBulk).flatten ++ rest)) =
      (pre ++ ['*']) ++
        (natChars bs.length ++ '\r' :: '\n' :: ((bs.map encBulk).flatten ++ rest))
      from by simp]
    rw [show pre.length + 1 = (pre ++ ['*']).length from by simp, List.drop_left]
  have hsub : substr (pre ++ (encFrame bs ++ rest)) (pre.length + 1)
      (pre.length + (1 + (natChars bs.length).length) - (pre.length + 1)) =
      natChars bs.length := by
    unfold substr
    rw [hdrop1,
      show pre.length + (1 + (natChars bs.length).length) - (pre.length + 1) =
        (natChars bs.length).length from by omega,
      List.take_left]
  have hstoi : stoiChars (natChars bs.length) = some (bs.length : Int) :=
    stoiChars_natChars (by omega)
  have hpre2 : pre.length + (1 + (natChars bs.length).length) + 2 =
      (pre ++ ('*' :: natChars bs.length ++ CRLF)).length := by
    simp [CRLF]
    omega
  have hbuf2 : pre ++ (encFrame bs ++ rest) =
      (pre ++ ('*' :: natChars bs.length ++ CRLF)) ++ ((bs.map encBulk).flatten ++ rest) := by
    rw [hdec]
    simp [CRLF]
  have hbulks : RedisCommandHandler.parseBulksAt (pre ++ (encFrame bs ++ rest)) bs.length
      (pre.length + (1 + (natChars bs.length).length) + 2) =
      some ((pre ++ ('*' :: natChars bs.length ++ CRLF)).length +
        ((bs.map encBulk).flatten).length) := by
    rw [hpre2, hbuf2]
    refine parseBulksAt_enc bs (pre ++ ('*' :: natChars bs.length ++ CRLF)) rest hb ?_
    have h2 := hsz
    rw [hbuf2] at h2
    simp only [List.length_append] at h2 ⊢
    omega
  have hcursor : (pre ++ ('*' :: natChars bs.length ++ CRLF)).length +
      ((bs.map encBulk).flatten).length = pre.length + (encFrame bs).length := by
    rw [encFrame_length]
    simp [CRLF]
    omega
  have hdiff : castSizeT (((pre.length + (encFrame bs).length : Nat) : Int) -
      ((pre.length : Nat) : Int)) = (encFrame bs).length := by
    rw [show ((pre.length + (encFrame bs).length : Nat) : Int) - ((pre.length : Nat) : Int) =
      ((encFrame bs).length : Int) from by push_cast; ring]
    refine castSizeT_coe _ ?_
    have h2 := hsz
    simp only [List.length_append] at h2
    unfold U64
    omega
  have hframe : substr (pre ++ (encFrame bs ++ rest)) pre.length (encFrame bs).length =
      encFrame bs := by
    unfold substr
    rw [hdropz]
    rw [show encFrame bs ++ rest = (encFrame bs ++ rest) from rfl]
    exact List.take_left _ _
  simp only [RedisCommandHandler.splitLoop, hget]
  rw [if_neg (by simp)]
  simp only [hfind, hsub, hstoi, Int.toNat_natCast, hbulks, hcursor]
  rw [hdiff, hframe]

/-! ### Truncated input yields no frame and no error -/

theorem parseBulksAt_partial_none (pre b : Str) (k count : Nat)
    (hb : b.length ≤ 512 * 2 ^ 20)
    (hk : k < (encBulk b).length)
    (hsz : pre.length + k ≤ 2 ^ 62) :
    RedisCommandHandler.parseBulksAt (pre ++ (encBulk b).take k) (count + 1) pre.length =
      none := by
  have hencl : (encBulk b).length = (natChars b.length).length + b.length + 5 :=
    encBulk_length b
  rcases Nat.eq_zero_or_pos k with rfl | hkpos
  · simp only [List.take_zero, List.append_nil, RedisCommandHandler.parseBulksAt]
    rw [List.get?_eq_none.2 (Nat.le_refl _)]
  · have hdec : encBulk b = '$' :: (natChars b.length ++ '\r' :: '\n' :: (b ++ ['\r', '\n'])) := by
      simp [encBulk, CRLF]
    have htk : (encBulk b).take k =
        '$' :: (natChars b.length ++ '\r' :: '\n' :: (b ++ ['\r', '\n'])).take (k - 1) := by
      rw [hdec]
      cases k with
      | zero => omega
      | succ m => simp
    set m := k - 1 with hm
    set T := natChars b.length ++ '\r' :: '\n' :: (b ++ ['\r', '\n']) with hT
    have hmT : m < T.length := by
      rw [hT]
      simp only [List.length_append, List.length_cons]
      omega
    have hget : (pre ++ (encBulk b).take k).get? pre.length = some '$' := by
      rw [htk, List.get?_append_right (Nat.le_refl _), Nat.sub_self]
      rfl
    have hdrop : (pre ++ (encBulk b).take k).drop (pre.length + 1) = T.take m := by
      rw [htk]
      rw [show pre ++ '$' :: T.take m = (pre ++ ['$']) ++ T.take m from by simp]
      rw [show pre.length + 1 = (pre ++ ['$']).length from by simp, List.drop_left]
    simp only [RedisCommandHandler.parseBulksAt, hget]
    rw [if_neg (by simp)]
    by_cases h1 : m ≤ (natChars b.length).length
    · have htm : T.take m = (natChars b.length).take m := by
        rw [hT, List.take_append_eq_append_take,
          show m - (natChars b.length).length = 0 from by omega]
        simp
      have hfind : findCRLF (pre ++ (encBulk b).take k) (pre.length + 1) = none := by
        unfold findCRLF
        rw [hdrop, htm, crlfIdx_none_no_cr]
        · rfl
        · intro c hc
          exact digit_ne_cr (natChars_all_digits b.length c ((List.take_sublist _ _).subset hc))
      rw [hfind]
    · by_cases h2 : m = (natChars b.length).length + 1
      · have htm : T.take m = natChars b.length ++ ['\r'] := by
          rw [hT, List.take_append_eq_append_take,
            List.take_all_of_le (by omega), h2]
          simp
        have hfind : findCRLF (pre ++ (encBulk b).take k) (pre.length + 1) = none := by
          unfold findCRLF
          rw [hdrop, htm, crlfIdx_none_append_cr (digits_no_cr (natChars_all_digits _))]
          rfl
        rw [hfind]
      · have h3 : (natChars b.length).length + 2 ≤ m := by omega
        have htm : T.take m =
            natChars b.length ++ '\r' :: '\n' ::
              (b ++ ['\r', '\n']).take (m - (natChars b.length).length - 2) := by
          rw [hT, List.take_append_eq_append_take, List.take_all_of_le (by omega)]
          congr 1
          rw [show m - (natChars b.length).length =
            (m - (natChars b.length).length - 2) + 2 from by omega]
          rw [show ('\r' :: '\n' :: (b ++ ['\r', '\n'])) =
            ['\r', '\n'] ++ (b ++ ['\r', '\n']) from rfl]
          rw [List.take_append_eq_append_take]
          simp [List.take_all_of_le]
        have hfind : findCRLF (pre ++ (encBulk b).take k) (pre.length + 1) =
            some (pre.length + 1 + (natChars b.length).length) := by
          unfold findCRLF
          rw [hdrop, htm, crlfIdx_no_cr_append (digits_no_cr (natChars_all_digits _))]
          simp
          omega
        have hsub : substr (pre ++ (encBulk b).take k) (pre.length + 1)
            (pre.length + 1 + (natChars b.length).length - (pre.length + 1)) =
            natChars b.length := by
          unfold substr
          rw [hdrop, htm, show pre.length + 1 + (natChars b.length).length -
            (pre.length + 1) = (natChars b.length).length from by omega, List.take_left]
        have hstoi : stoiChars (natChars b.length) = some (b.length : Int) :=
          stoiChars_natChars (by omega)
        have hcast : castSizeT (b.length : Int) = b.length :=
          castSizeT_coe _ (by unfold U64; omega)
        have hlen : (pre ++ (encBulk b).take k).length = pre.length + k := by
          simp only [List.length_append, List.length_take]
          omega
        have hmod : (pre.length + 1 + (natChars b.length).length + 2 + b.length + 2) % U64 =
            pre.length + (encBulk b).length := by
          rw [show pre.length + 1 + (natChars b.length).length + 2 + b.length + 2 =
            pre.length + (encBulk b).length from by omega]
          exact Nat.mod_eq_of_lt (by unfold U64; omega)
        have hgt : pre.length + (encBulk b).length > (pre ++ (encBulk b).take k).length := by
          rw [hlen]
          omega
        rw [hfind]
        simp only [hsub, hstoi, hcast, hmod]
        rw [if_pos hgt]

theorem parseBulksAt_flatten_none (bs : List Str) (pre : Str) (k : Nat)
    (hb : ∀ b ∈ bs, b.length ≤ 512 * 2 ^ 20)
    (hk : k < ((bs.map encBulk).flatten).length)
    (hsz : pre.length + k ≤ 2 ^ 62) :
    RedisCommandHandler.parseBulksAt (pre ++ ((bs.map encBulk).flatten).take k)
      bs.length pre.length = none := by
  induction bs generalizing pre k with
  | nil => simp at hk
  | cons b bs ih =>
    have hflat : ((b :: bs).map encBulk).flatten =
        encBulk b ++ (bs.map encBulk).flatten := by simp
    by_cases h1 : k < (encBulk b).length
    · have htk : (((b :: bs).map encBulk).flatten).take k = (encBulk b).take k := by
        rw [hflat, List.take_append_eq_append_take,
          show k - (encBulk b).length = 0 from by omega]
        simp
      rw [htk, List.length_cons]
      exact parseBulksAt_partial_none pre b k bs.length
        (hb b (List.mem_cons_self _ _)) h1 hsz
    · have htk : (((b :: bs).map encBulk).flatten).take k =
          encBulk b ++ ((bs.map encBulk).flatten).take (k - (encBulk b).length) := by
        rw [hflat, List.take_append_eq_append_take, List.take_all_of_le (by omega)]
      rw [htk, List.length_cons]
      rw [show pre ++ (encBulk b ++ ((bs.map encBulk).flatten).take (k - (encBulk b).length)) =
        pre ++ (encBulk b ++ ((bs.map encBulk).flatten).take (k - (encBulk b).length)) from rfl]
      rw [parseBulksAt_cons pre b _ bs.length (hb b (List.mem_cons_self _ _))
        (by
          simp only [List.length_append, List.length_take]
          rw [hflat] at hk
          simp only [List.length_append] at hk
          omega)]
      rw [show pre ++ (encBulk b ++ ((bs.map encBulk).flatten).take (k - (encBulk b).length)) =
        (pre ++ encBulk b) ++ ((bs.map encBulk).flatten).take (k - (encBulk b).length)
        from by simp]
      rw [show pre.length + (encBulk b).length = (pre ++ encBulk b).length from by simp]
      refine ih (pre ++ encBulk b) (k - (encBulk b).length)
        (fun x hx => hb x (List.mem_cons_of_mem _ hx)) ?_ ?_
      · rw [hflat] at hk
        simp only [List.length_append] at hk
        omega
      · simp only [List.length_append]
        omega

theorem splitLoop_tail (pre t : Str) (acc : List Str) (fuel : Nat)
    (ht : TailOk t)
    (hsz : (pre ++ t).length ≤ 2 ^ 62) :
    RedisCommandHandler.splitLoop (pre ++ t) fuel pre.length acc = (acc, pre.length) := by
  cases fuel with
  | zero => rfl
  | succ fuel =>
    rcases ht with rfl | ⟨cs, m, hlim, hm, rfl⟩
    · simp only [RedisCommandHandler.splitLoop, List.append_nil]
      rw [List.get?_eq_none.2 (Nat.le_refl _)]
    · obtain ⟨hn, hb⟩ := hlim
      rcases Nat.eq_zero_or_pos m with rfl | hmpos
      · simp only [List.take_zero, List.append_nil, RedisCommandHandler.splitLoop]
        rw [List.get?_eq_none.2 (Nat.le_refl _)]
      · set D := natChars cs.length with hD
        set J := (cs.map encBulk).flatten with hJ
        set T := D ++ '\r' :: '\n' :: J with hT
        have hdec : encFrame cs = '*' :: T := encFrame_decomp cs
        have htk : (encFrame cs).take m = '*' :: T.take (m - 1) := by
          rw [hdec]
          cases m with
          | zero => omega
          | succ m0 => simp
        have hmT : m - 1 < T.length := by
          have := hm
          rw [hdec] at this
          simp only [List.length_cons] at this
          omega
        have htlen : ((encFrame cs).take m).length = m := by
          rw [List.length_take]
          omega
        have hget : (pre ++ (encFrame cs).take m).get? pre.length = some '*' := by
          rw [htk, List.get?_append_right (Nat.le_refl _), Nat.sub_self]
          rfl
        have hdropz : (pre ++ (encFrame cs).take m).drop pre.length =
            '*' :: T.take (m - 1) := by
          rw [htk]
          exact List.drop_left pre _
        have hdrop1 : (pre ++ (encFrame cs).take m).drop (pre.length + 1) = T.take (m - 1) := by
          rw [htk]
          rw [show pre ++ '*' :: T.take (m - 1) = (pre ++ ['*']) ++ T.take (m - 1) from by simp]
          rw [show pre.length + 1 = (pre ++ ['*']).length from by simp, List.drop_left]
        simp only [RedisCommandHandler.splitLoop, hget]
        rw [if_neg (by simp)]
        by_cases h1 : m - 1 ≤ D.length
        · have htm : T.take (m - 1) = D.take (m - 1) := by
            rw [hT, List.take_append_eq_append_take,
              show m - 1 - D.length = 0 from by omega]
            simp
          have hfind : findCRLF (pre ++ (encFrame cs).take m) pre.length = none := by
            unfold findCRLF
            rw [hdropz, htm, crlfIdx_none_no_cr]
            · rfl
            · intro c hc
              rcases List.mem_cons.1 hc with rfl | hc2
              · decide
              · exact digit_ne_cr
                  (natChars_all_digits cs.length c ((List.take_sublist _ _).subset hc2))
          rw [hfind]
        · by_cases h2 : m - 1 = D.length + 1
          · have htm : T.take (m - 1) = D ++ ['\r'] := by
              rw [hT, List.take_append_eq_append_take, List.take_all_of_le (by omega), h2]
              simp
            have hfind : findCRLF (pre ++ (encFrame cs).take m) pre.length = none := by
              unfold findCRLF
              rw [hdropz, htm]
              rw [show '*' :: (D ++ ['\x0d']) = ('*' :: D) ++ ['\x0d'] from by simp]
              rw [crlfIdx_none_append_cr]
              · rfl
              · intro c hc
                rcases List.mem_cons.1 hc with rfl | hc2
                · decide
                · exact digit_ne_cr (natChars_all_digits cs.length c hc2)
            rw [hfind]
          · have h3 : D.length + 2 ≤ m - 1 := by omega
            set k := m - 1 - D.length - 2 with hk
            have hkJ : k < J.length := by
              rw [hT] at hmT
              simp only [List.length_append, List.length_cons] at hmT
              omega
            have htm : T.take (m - 1) = D ++ '\r' :: '\n' :: J.take k := by
              rw [hT, List.take_append_eq_append_take, List.take_all_of_le (by omega)]
              congr 1
              rw [show m - 1 - D.length = k + 2 from by omega]
              rw [show ('\r' :: '\n' :: J) = ['\r', '\n'] ++ J from rfl]
              rw [List.take_append_eq_append_take]
              simp [List.take_all_of_le]
            have hfind : findCRLF (pre ++ (encFrame cs).take m) pre.length =
                some (pre.length + (1 + D.length)) := by
              unfold findCRLF
              rw [hdropz, htm]
              rw [show '*' :: (D ++ '\x0d' :: '\x0a' :: J.take k) =
                ('*' :: D) ++ '\x0d' :: '\x0a' :: J.take k from by simp]
              rw [crlfIdx_no_cr_append]
              · simp
                omega
              · intro c hc
                rcases List.mem_cons.1 hc with rfl | hc2
                · decide
                · exact digit_ne_cr (natChars_all_digits cs.length c hc2)
            have hsub : substr (pre ++ (encFrame cs).take m) (pre.length + 1)
                (pre.length + (1 + D.length) - (pre.length + 1)) = D := by
              unfold substr
              rw [hdrop1, htm,
                show pre.length + (1 + D.length) - (pre.length + 1) = D.length from by omega,
                List.take_left]
            have hstoi : stoiChars D = some (cs.length : Int) := by
              rw [hD]
              exact stoiChars_natChars (by omega)
            have hpre2 : pre.length + (1 + D.length) + 2 =
                (pre ++ ('*' :: D ++ CRLF)).length := by
              simp [CRLF]
              omega
            have hbuf2 : pre ++ (encFrame cs).take m =
                (pre ++ ('*' :: D ++ CRLF)) ++ J.take k := by
              rw [htk, htm]
              simp [CRLF]
            have hbulks : RedisCommandHandler.parseBulksAt (pre ++ (encFrame cs).take m)
                cs.length (pre.length + (1 + D.length) + 2) = none := by
              rw [hpre2, hbuf2, hJ]
              refine parseBulksAt_flatten_none cs _ k hb (by rw [← hJ]; exact hkJ) ?_
              have h4 := hsz
              rw [hbuf2] at h4
              simp only [List.length_append, List.length_take] at h4 ⊢
              omega
            rw [hfind]
            simp only [hsub, hstoi, Int.toNat_natCast, hbulks]

/-! ### The loop over a stream of frames followed by a truncated tail -/

theorem natChars_length_pos (n : Nat) : 1 ≤ (natChars n).length := by
  rcases h : natChars n with _ | ⟨c, l⟩
  · exact absurd h (natChars_ne_nil n)
  · simp

theorem encFrame_length_ge (bs : List Str) : 4 ≤ (encFrame bs).length := by
  rw [encFrame_length]
  have := natChars_length_pos bs.length
  omega

theorem frames_le_flatten_length (fs : List (List Str)) :
    fs.length ≤ ((fs.map encFrame).flatten).length := by
  induction fs with
  | nil => simp
  | cons bs fs ih =>
    have h4 := encFrame_length_ge bs
    simp only [List.map_cons, List.flatten_cons, List.length_append, List.length_cons]
    omega

theorem splitLoop_run (fs : List (List Str)) (t pre : Str) (acc : List Str) (fuel : Nat)
    (hfs : ∀ bs ∈ fs, FrameLimits bs) (ht : TailOk t)
    (hfuel : fs.length ≤ fuel)
    (hsz : (pre ++ ((fs.map encFrame).flatten ++ t)).length ≤ 2 ^ 62) :
    RedisCommandHandler.splitLoop (pre ++ ((fs.map encFrame).flatten ++ t)) fuel
        pre.length acc =
      (acc ++ fs.map encFrame, pre.length + ((fs.map encFrame).flatten).length) := by
  induction fs generalizing pre acc fuel with
  | nil =>
    simp only [List.map_nil, List.length_nil, Nat.add_zero, List.append_nil]
    have h := splitLoop_tail pre t acc fuel ht (by simpa using hsz)
    simpa using h
  | cons bs fs ih =>
    have hflat : ((bs :: fs).map encFrame).flatten =
        encFrame bs ++ (fs.map encFrame).flatten := by simp
    cases fuel with
    | zero => simp at hfuel
    | succ f =>
      have hassoc : pre ++ (((bs :: fs).map encFrame).flatten ++ t) =
          pre ++ (encFrame bs ++ ((fs.map encFrame).flatten ++ t)) := by
        rw [hflat]
        simp
      rw [hassoc]
      rw [splitLoop_frame pre ((fs.map encFrame).flatten ++ t) acc bs f
        (hfs bs (List.mem_cons_self _ _)) (by rw [← hassoc]; exact hsz)]
      rw [show pre ++ (encFrame bs ++ ((fs.map encFrame).flatten ++ t)) =
        (pre ++ encFrame bs) ++ ((fs.map encFrame).flatten ++ t) from by simp]
      rw [show pre.length + (encFrame bs).length = (pre ++ encFrame bs).length from by simp]
      rw [ih (pre ++ encFrame bs) (acc ++ [encFrame bs]) f
        (fun x hx => hfs x (List.mem_cons_of_mem _ hx)) (by simpa using hfuel)
        (by
          rw [hflat] at hsz
          simp only [List.length_append] at hsz ⊢
          omega)]
      rw [hflat]
      simp only [List.map_cons, List.length_append, Prod.mk.injEq]
      constructor
      · simp
      · omega

theorem splitFrames_stream (fs : List (List Str)) (t : Str)
    (hfs : ∀ bs ∈ fs, FrameLimits bs) (ht : TailOk t)
    (hsz : ((fs.map encFrame).flatten ++ t).length ≤ 2 ^ 62) :
    RedisCommandHandler.splitFrames ((fs.map encFrame).flatten ++ t) =
      (fs.map encFrame, ((fs.map encFrame).flatten).length) := by
  unfold RedisCommandHandler.splitFrames
  have hfuel : fs.length ≤ ((fs.map encFrame).flatten ++ t).length + 1 := by
    have := frames_le_flatten_length fs
    simp only [List.length_append]
    omega
  have h := splitLoop_run fs t [] [] (((fs.map encFrame).flatten ++ t).length + 1)
    hfs ht hfuel (by simpa using hsz)
  simpa using h

/-! ### Decomposing an arbitrary prefix of a valid stream -/

theorem stream_prefix_decomp (fs : List (List Str)) (t : Str)
    (hfs : ∀ bs ∈ fs, FrameLimits bs) (ht : TailOk t) :
    ∀ p q : Str, p ++ q = (fs.map encFrame).flatten ++ t →
    ∃ fsA fsB t2, fs = fsA ++ fsB ∧
      p = (fsA.map encFrame).flatten ++ t2 ∧ TailOk t2 ∧
      t2 ++ q = (fsB.map encFrame).flatten ++ t := by
  induction fs with
  | nil =>
    intro p q heq
    simp only [List.map_nil, List.flatten_nil, List.nil_append] at heq
    rcases ht with rfl | ⟨cs, m, hlim, hm, rfl⟩
    · rcases List.append_eq_nil.1 heq with ⟨rfl, rfl⟩
      exact ⟨[], [], [], rfl, by simp, Or.inl rfl, by simp⟩
    · have hplen : p.length ≤ m := by
        have h1 : p.length ≤ ((encFrame cs).take m).length := by
          rw [← heq]
          simp
        rw [List.length_take] at h1
        omega
      have hp : p = (encFrame cs).take p.length := by
        have h1 : p = (p ++ q).take p.length := (List.take_left p q).symm
        rw [heq, List.take_take] at h1
        rwa [show min p.length m = p.length from by omega] at h1
      refine ⟨[], [], p, rfl, by simp, Or.inr ⟨cs, p.length, hlim, by omega, hp⟩, ?_⟩
      simpa using heq
  | cons bs fs ih =>
    intro p q heq
    have hflat : ((bs :: fs).map encFrame).flatten ++ t =
        encFrame bs ++ ((fs.map encFrame).flatten ++ t) := by simp
    rw [hflat] at heq
    by_cases hlen : p.length < (encFrame bs).length
    · have hp : p = (encFrame bs).take p.length := by
        have h1 : p = (p ++ q).take p.length := (List.take_left p q).symm
        rw [heq, List.take_append_eq_append_take,
          show p.length - (encFrame bs).length = 0 from by omega] at h1
        simpa using h1
      refine ⟨[], bs :: fs, p, rfl, by simp,
        Or.inr ⟨bs, p.length, hfs bs (List.mem_cons_self _ _), hlen, hp⟩, ?_⟩
      rw [heq, hflat]
    · have hlen2 : (encFrame bs).length ≤ p.length := by omega
      have hp : p = encFrame bs ++
          ((fs.map encFrame).flatten ++ t).take (p.length - (encFrame bs).length) := by
        have h1 : p = (p ++ q).take p.length := (List.take_left p q).symm
        rw [heq, List.take_append_eq_append_take, List.take_all_of_le hlen2] at h1
        exact h1
      have hq : ((fs.map encFrame).flatten ++ t).take (p.length - (encFrame bs).length) ++ q =
          (fs.map encFrame).flatten ++ t := by
        have h2 := heq
        rw [hp] at h2
        rw [List.append_assoc] at h2
        exact List.append_cancel_left h2
      obtain ⟨fsA, fsB, t2, h1, h2, h3, h4⟩ :=
        ih (fun x hx => hfs x (List.mem_cons_of_mem _ hx)) _ q hq
      refine ⟨bs :: fsA, fsB, t2, by rw [h1]; rfl, ?_, h3, h4⟩
      rw [hp, h2]
      simp

/-! ### The chunked framer agrees with the whole-stream framer -/

theorem framer_fold (chunks : List Str) :
    ∀ (buf : Str) (done : List Str) (fs : List (List Str)) (t : Str),
    (∀ bs ∈ fs, FrameLimits bs) → TailOk t → TailOk buf →
    buf ++ chunks.flatten = (fs.map encFrame).flatten ++ t →
    ((fs.map encFrame).flatten ++ t).length ≤ 2 ^ 62 →
    chunks.foldl
      (fun (acc : List Str × Str) c =>
        let buf := acc.2 ++ c
        let r := RedisCommandHandler.splitFrames buf
        (acc.1 ++ r.1, buf.drop r.2))
      (done, buf) = (done ++ fs.map encFrame, t) := by
  induction chunks with
  | nil =>
    intro buf done fs t hfs ht hbuf heq hsz
    simp only [List.flatten_nil, List.append_nil] at heq
    have h1 := splitFrames_stream fs t hfs ht hsz
    have h2 : RedisCommandHandler.splitFrames buf = ([], 0) := by
      have h3 := splitFrames_stream [] buf (by simp) hbuf
        (by rw [heq]; simpa using hsz)
      simpa using h3
    rw [heq, h1] at h2
    have hmap : fs.map encFrame = [] := congrArg Prod.fst h2
    have hfsnil : fs = [] := List.map_eq_nil.1 hmap
    subst hfsnil
    simp only [List.map_nil, List.flatten_nil, List.nil_append] at heq
    simp [List.foldl_nil, heq]
  | cons c rest ih =>
    intro buf done fs t hfs ht hbuf heq hsz
    have heq2 : (buf ++ c) ++ rest.flatten = (fs.map encFrame).flatten ++ t := by
      rw [← heq]
      simp
    obtain ⟨fsA, fsB, t2, hsplit, hbufc, ht2, hrest⟩ :=
      stream_prefix_decomp fs t hfs ht (buf ++ c) rest.flatten heq2
    have hszA : ((fsA.map encFrame).flatten ++ t2).length ≤ 2 ^ 62 := by
      rw [← hbufc]
      have h1 : (buf ++ c).length ≤ ((buf ++ c) ++ rest.flatten).length := by simp
      rw [heq2] at h1
      omega
    have hstep : RedisCommandHandler.splitFrames (buf ++ c) =
        (fsA.map encFrame, ((fsA.map encFrame).flatten).length) := by
      rw [hbufc]
      exact splitFrames_stream fsA t2
        (fun x hx => hfs x (by rw [hsplit]; exact List.mem_append_left _ hx)) ht2 hszA
    have hdrop : (buf ++ c).drop ((fsA.map encFrame).flatten).length = t2 := by
      rw [hbufc]
      exact List.drop_left _ _
    have hstep2 : (done ++ (RedisCommandHandler.splitFrames (buf ++ c)).1,
        (buf ++ c).drop (RedisCommandHandler.splitFrames (buf ++ c)).2) =
        ((done ++ fsA.map encFrame, t2) : List Str × Str) := by
      rw [hstep]
      show (done ++ fsA.map encFrame,
        (buf ++ c).drop ((fsA.map encFrame).flatten).length) = _
      rw [hdrop]
    simp only [List.foldl_cons]
    rw [hstep2]
    have hszB : ((fsB.map encFrame).flatten ++ t).length ≤ 2 ^ 62 := by
      have h1 : ((fs.map encFrame).flatten).length =
          ((fsA.map encFrame).flatten).length + ((fsB.map encFrame).flatten).length := by
        rw [hsplit]
        simp
      simp only [List.length_append] at hsz ⊢
      omega
    rw [ih t2 (done ++ fsA.map encFrame) fsB t
      (fun x hx => hfs x (by rw [hsplit]; exact List.mem_append_right _ hx)) ht ht2
      hrest hszB]
    rw [hsplit]
    simp

/-- C8: for every valid RESP multi-bulk request stream (a sequence of frames
within the spec limits, optionally followed by a truncated frame) and every
way of splitting it into successive chunks, appending the chunks one at a
time to the framing buffer and collecting the complete frames returned after
each append yields the same ordered frame sequence as submitting the whole
stream at once; a buffer ending in a truncated frame yields only the complete
leading frames (never an error), leaving the truncated tail in the buffer. -/
theorem c8_framer_chunking (fs : List (List Str)) (t : Str) (chunks : List Str)
    (hfs : ∀ bs ∈ fs, FrameLimits bs) (ht : TailOk t)
    (hchunks : chunks.flatten = (fs.map encFrame).flatten ++ t)
    (hsz : ((fs.map encFrame).flatten ++ t).length ≤ 2 ^ 62) :
    framerRun chunks = (fs.map encFrame, t) ∧
    RedisCommandHandler.splitFrames ((fs.map encFrame).flatten ++ t) =
      (fs.map encFrame, ((fs.map encFrame).flatten).length) := by
  constructor
  · have h := framer_fold chunks [] [] fs t hfs ht (Or.inl rfl)
      (by simpa using hchunks) hsz
    unfold framerRun
    simpa using h
  · exact splitFrames_stream fs t hfs ht hsz

/-- C8 witness: the frame `*1\r\n$4\r\nPING\r\n` split into the two chunks
`*1\r\n$4\r\nPI` and `NG\r\n` is reassembled by the chunked framer into the
single complete frame, with an empty residual, matching the whole-stream
result. -/
theorem c8_witness :
    framerRun ["*1\r\n$4\r\nPI".toList, "NG\r\n".toList] =
      ([["PING".toList]].map encFrame, ([] : Str)) ∧
    RedisCommandHandler.splitFrames
        (([["PING".toList]].map encFrame).flatten ++ ([] : Str)) =
      ([["PING".toList]].map encFrame,
        (([["PING".toList]].map encFrame).flatten).length) :=
  c8_framer_chunking [["PING".toList]] [] ["*1\r\n$4\r\nPI".toList, "NG\r\n".toList]
    (by
      intro bs hbs
      simp only [List.mem_singleton] at hbs
      subst hbs
      refine ⟨by decide, ?_⟩
      intro b hb
      simp only [List.mem_singleton] at hb
      subst hb
      decide)
    (Or.inl rfl)
    (by decide)
    (by decide)

/-! ## Claim C7: the snapshot round trip

Models of `RedisDatabase::dump` and `RedisDatabase::load`
(RedisDataBase.cpp:659-838).  `dump` serializes the four maps as `K`, `L`,
`H` and `E` records; the model renders the bytes written to the stream (the
file-open failure path is not modelled, the functions otherwise always
return `true`).  `load` clears the four maps, replays the records and ends
with `purgeExpired_locked`.  The numeric reads (`ifs >> n`) skip leading
whitespace and consume a maximal digit run; the failed-stream states the
C++ extraction can enter on malformed input are outside the model, which is
only ever evaluated on images produced by `dump`, where every extraction
succeeds. -/

namespace RedisDatabase

/-- One `K` record: `K <klen> <vlen>\n<key><value>\n`. -/
def dumpK (p : Str × Str) : Str :=
  'K' :: ' ' :: natChars p.1.length ++ ' ' :: natChars p.2.length ++ '\n' ::
    (p.1 ++ p.2 ++ ['\n'])

/-- One list item inside an `L` record: ` <len>\n<item>`. -/
def dumpItem (it : Str) : Str := ' ' :: natChars it.length ++ '\n' :: it

/-- One `L` record: `L <klen> <count>\n<key>` then the items then `\n`. -/
def dumpL (p : Str × List Str) : Str :=
  'L' :: ' ' :: natChars p.1.length ++ ' ' :: natChars p.2.length ++ '\n' ::
    (p.1 ++ (p.2.map dumpItem).flatten ++ ['\n'])

/-- One field-value pair inside an `H` record: ` <flen> <vlen>\n<field><value>`. -/
def dumpPair (q : Str × Str) : Str :=
  ' ' :: natChars q.1.length ++ ' ' :: natChars q.2.length ++ '\n' :: (q.1 ++ q.2)

/-- One `H` record: `H <klen> <pairs>\n<key>` then the pairs then `\n`. -/
def dumpH (p : Str × List (Str × Str)) : Str :=
  'H' :: ' ' :: natChars p.1.length ++ ' ' :: natChars p.2.length ++ '\n' ::
    (p.1 ++ (p.2.map dumpPair).flatten ++ ['\n'])

/-- One `E` record: `E <klen> <ms>\n<key>\n`. -/
def dumpE (p : Str × Int) : Str :=
  'E' :: ' ' :: natChars p.1.length ++ ' ' :: intChars p.2 ++ '\n' :: (p.1 ++ ['\n'])

/-- Models `RedisDatabase::dump`: strings, then lists, then hashes, then
expiries. -/
def dump (st : DBState) : Str :=
  (st.kv_store.map dumpK).flatten ++ (st.list_store.map dumpL).flatten ++
    (st.hash_store.map dumpH).flatten ++ (st.expiry_map.map dumpE).flatten

/-- Models `ifs.get()`: consume one character (nothing at end of file). -/
def getOne : Str → Str
  | [] => []
  | _ :: r => r

/-- Models `ifs >> n` into an unsigned integer: skip whitespace, then read a
maximal digit run. -/
def readNatWs (s : Str) : Nat × Str := readDigits 0 (s.dropWhile isSpaceChar)

/-- Models `ifs >> ms` into `long long`: skip whitespace, optional sign,
then a maximal digit run. -/
def readIntWs (s : Str) : Int × Str :=
  match s.dropWhile isSpaceChar with
  | [] => (0, [])
  | c :: r =>
    if c = '-' then (-(((readDigits 0 r).1 : Nat) : Int), (readDigits 0 r).2)
    else if c = '+' then ((((readDigits 0 r).1 : Nat) : Int), (readDigits 0 r).2)
    else ((((readDigits 0 (c :: r)).1 : Nat) : Int), (readDigits 0 (c :: r)).2)

/-- Models `if (ifs.peek() == chr(10)) ifs.get();`. -/
def consumeNL : Str → Str
  | '\n' :: r => r
  | s => s

/-- Models `std::getline(ifs, skip)`: drop through the first newline. -/
def dropLine : Str → Str
  | [] => []
  | c :: r => if c = '\n' then r else dropLine r

/-- The item loop of the `L` branch of `load`. -/
def loadItems : Nat → Str → List Str × Str
  | 0, s => ([], s)
  | n + 1, s =>
    let p := readNatWs s
    let s2 := getOne p.2
    let r := loadItems n (s2.drop p.1)
    (s2.take p.1 :: r.1, r.2)

/-- Models `mp.emplace(field, value)`: insert only when the key is absent. -/
def emplaceA {β : Type} (k : Str) (v : β) (l : List (Str × β)) : List (Str × β) :=
  if memA k l then l else l ++ [(k, v)]

/-- The pair loop of the `H` branch of `load`. -/
def loadPairs : Nat → Str → List (Str × Str) → List (Str × Str) × Str
  | 0, s, mp => (mp, s)
  | n + 1, s, mp =>
    let p1 := readNatWs s
    let p2 := readNatWs p1.2
    let s3 := getOne p2.2
    let s4 := s3.drop p1.1
    loadPairs n (s4.drop p2.1) (emplaceA (s3.take p1.1) (s4.take p2.1) mp)

/-- The record loop of `load`.  Each iteration consumes the tag character,
so `s.length + 1` fuel always suffices. -/
def loadLoop : Nat → Str → DBState → DBState
  | 0, _, st => st
  | _ + 1, [], st => st
  | fuel + 1, tag :: s0, st =>
    if tag = 'K' then
      let p1 := readNatWs s0
      let p2 := readNatWs p1.2
      let s3 := getOne p2.2
      let s4 := s3.drop p1.1
      loadLoop fuel (consumeNL (s4.drop p2.1))
        { st with kv_store := insertA (s3.take p1.1) (s4.take p2.1) st.kv_store }
    else if tag = 'L' then
      let p1 := readNatWs s0
      let p2 := readNatWs p1.2
      let s3 := getOne p2.2
      let r := loadItems p2.1 (s3.drop p1.1)
      loadLoop fuel (consumeNL r.2)
        { st with list_store := insertA (s3.take p1.1) r.1 st.list_store }
    else if tag = 'H' then
      let p1 := readNatWs s0
      let p2 := readNatWs p1.2
      let s3 := getOne p2.2
      let r := loadPairs p2.1 (s3.drop p1.1) []
      loadLoop fuel (consumeNL r.2)
        { st with hash_store := insertA (s3.take p1.1) r.1 st.hash_store }
    else if tag = 'E' then
      let p1 := readNatWs s0
      let p2 := readIntWs p1.2
      let s3 := getOne p2.2
      loadLoop fuel (consumeNL (s3.drop p1.1))
        { st with expiry_map := insertA (s3.take p1.1) p2.1 st.expiry_map }
    else loadLoop fuel (dropLine s0) st

/-- Models `RedisDatabase::load`: clear the four maps, replay the records,
then run the full expiry purge. -/
def load (now : Nat) (s : Str) (st : DBState) : DBState :=
  purgeExpired_locked now
    (loadLoop (s.length + 1) s
      { st with kv_store := [], list_store := [], hash_store := [], expiry_map := [] })

end RedisDatabase

/-! ### Reading back the numbers the dump wrote -/

theorem dropWhile_space_natChars (n : Nat) (x : Str) :
    (natChars n ++ x).dropWhile isSpaceChar = natChars n ++ x := by
  rcases hn : natChars n with _ | ⟨c, t⟩
  · exact absurd hn (natChars_ne_nil n)
  · rw [List.cons_append, List.dropWhile_cons]
    have hc : isDigitChar c = true :=
      natChars_all_digits n c (by rw [hn]; exact List.mem_cons_self _ _)
    rw [digit_not_space hc]
    simp

theorem readDigits_sep (n : Nat) (c : Char) (r : Str) (hc : isDigitChar c = false) :
    readDigits 0 (natChars n ++ c :: r) = (n, c :: r) := by
  rw [readDigits_append (c :: r) 0 (by rw [readDigits_natChars])]
  rw [readDigits_natChars]
  simp only [Nat.zero_mul, Nat.zero_add]
  rw [readDigits, if_neg (by rw [hc]; simp)]

theorem readNatWs_sep (n : Nat) (c : Char) (r : Str) (hc : isDigitChar c = false) :
    RedisDatabase.readNatWs (' ' :: (natChars n ++ c :: r)) = (n, c :: r) := by
  unfold RedisDatabase.readNatWs
  rw [List.dropWhile_cons, show isSpaceChar ' ' = true from by decide]
  simp only [if_true]
  rw [dropWhile_space_natChars]
  exact readDigits_sep n c r hc

theorem readIntWs_sep (i : Int) (c : Char) (r : Str) (hc : isDigitChar c = false) :
    RedisDatabase.readIntWs (' ' :: (intChars i ++ c :: r)) = (i, c :: r) := by
  have hdw : (' ' :: (intChars i ++ c :: r)).dropWhile isSpaceChar =
      intChars i ++ c :: r := by
    rw [List.dropWhile_cons, show isSpaceChar ' ' = true from by decide]
    simp only [if_true]
    unfold intChars
    by_cases hi : i < 0
    · rw [if_pos hi, List.cons_append, List.dropWhile_cons,
        show isSpaceChar '-' = false from by decide]
      simp
    · rw [if_neg hi]
      exact dropWhile_space_natChars _ _
  by_cases hi : i < 0
  · have hint : intChars i = '-' :: natChars i.natAbs := by
      unfold intChars
      rw [if_pos hi]
    have hdw2 : (' ' :: (intChars i ++ c :: r)).dropWhile isSpaceChar =
        '-' :: (natChars i.natAbs ++ c :: r) := by
      rw [hdw, hint]
      simp
    simp only [RedisDatabase.readIntWs, hdw2]
    rw [if_pos trivial, readDigits_sep i.natAbs c r hc]
    simp only [Prod.mk.injEq]
    exact ⟨by omega, trivial⟩
  · have hint : intChars i = natChars i.toNat := by
      unfold intChars
      rw [if_neg hi]
    rcases hn : natChars i.toNat with _ | ⟨d, t⟩
    · exact absurd hn (natChars_ne_nil _)
    · have hd : isDigitChar d = true :=
        natChars_all_digits i.toNat d (by rw [hn]; exact List.mem_cons_self _ _)
      have hdw2 : (' ' :: (intChars i ++ c :: r)).dropWhile isSpaceChar =
          d :: (t ++ c :: r) := by
        rw [hdw, hint, hn]
        simp
      simp only [RedisDatabase.readIntWs, hdw2]
      rw [if_neg (digit_ne_minus hd), if_neg (digit_ne_plus hd)]
      rw [show (d :: (t ++ c :: r) : Str) = natChars i.toNat ++ c :: r from by
        rw [hn]; rfl]
      rw [readDigits_sep _ c r hc]
      simp only [Prod.mk.injEq]
      exact ⟨by omega, trivial⟩

theorem getOne_cons (c : Char) (r : Str) : RedisDatabase.getOne (c :: r) = r := rfl

theorem consumeNL_cons (r : Str) : RedisDatabase.consumeNL ('\n' :: r) = r := rfl

/-! ### Replaying one record -/

theorem loadLoop_K (fuel : Nat) (k v rest : Str) (st : DBState) :
    RedisDatabase.loadLoop (fuel + 1) (RedisDatabase.dumpK (k, v) ++ rest) st =
      RedisDatabase.loadLoop fuel rest
        { st with kv_store := insertA k v st.kv_store } := by
  have hform : RedisDatabase.dumpK (k, v) ++ rest =
      'K' :: ' ' :: (natChars k.length ++ ' ' :: (natChars v.length ++ '\n' ::
        (k ++ (v ++ '\n' :: rest)))) := by
    simp [RedisDatabase.dumpK]
  rw [hform]
  have h1 := readNatWs_sep k.length ' '
    (natChars v.length ++ '\n' :: (k ++ (v ++ '\n' :: rest))) (by decide)
  have h2 := readNatWs_sep v.length '\n' (k ++ (v ++ '\n' :: rest)) (by decide)
  simp only [RedisDatabase.loadLoop]
  simp only [h1, h2, getOne_cons, List.take_left, List.drop_left, consumeNL_cons]
  rw [if_pos trivial]

theorem loadItems_enc (items : List Str) (rest : Str) :
    RedisDatabase.loadItems items.length
        ((items.map RedisDatabase.dumpItem).flatten ++ rest) = (items, rest) := by
  induction items generalizing rest with
  | nil => simp [RedisDatabase.loadItems]
  | cons it items ih =>
    have hform : (((it :: items).map RedisDatabase.dumpItem).flatten ++ rest : Str) =
        ' ' :: (natChars it.length ++ '\n' ::
          (it ++ ((items.map RedisDatabase.dumpItem).flatten ++ rest))) := by
      simp [RedisDatabase.dumpItem]
    rw [List.length_cons, hform]
    have h1 := readNatWs_sep it.length '\n'
      (it ++ ((items.map RedisDatabase.dumpItem).flatten ++ rest)) (by decide)
    simp only [RedisDatabase.loadItems, h1, getOne_cons, List.take_left, List.drop_left, ih]

theorem loadLoop_L (fuel : Nat) (k : Str) (items : List Str) (rest : Str) (st : DBState) :
    RedisDatabase.loadLoop (fuel + 1) (RedisDatabase.dumpL (k, items) ++ rest) st =
      RedisDatabase.loadLoop fuel rest
        { st with list_store := insertA k items st.list_store } := by
  have hform : RedisDatabase.dumpL (k, items) ++ rest =
      'L' :: ' ' :: (natChars k.length ++ ' ' :: (natChars items.length ++ '\n' ::
        (k ++ ((items.map RedisDatabase.dumpItem).flatten ++ ('\n' :: rest))))) := by
    simp [RedisDatabase.dumpL]
  rw [hform]
  have h1 := readNatWs_sep k.length ' '
    (natChars items.length ++ '\n' ::
      (k ++ ((items.map RedisDatabase.dumpItem).flatten ++ ('\n' :: rest)))) (by decide)
  have h2 := readNatWs_sep items.length '\n'
    (k ++ ((items.map RedisDatabase.dumpItem).flatten ++ ('\n' :: rest))) (by decide)
  have h3 := loadItems_enc items ('\n' :: rest)
  simp only [RedisDatabase.loadLoop]
  simp only [h1, h2, getOne_cons, List.take_left, List.drop_left, h3, consumeNL_cons]
  rw [if_neg (by decide), if_pos trivial]

theorem lookupA_append_none {β : Type} {k : Str} {l1 : List (Str × β)}
    (h : lookupA k l1 = none) (l2 : List (Str × β)) :
    lookupA k (l1 ++ l2) = lookupA k l2 := by
  induction l1 with
  | nil => rfl
  | cons p t ih =>
    obtain ⟨k', v'⟩ := p
    rw [lookupA] at h
    by_cases hk : k' = k
    · rw [if_pos hk] at h
      cases h
    · rw [if_neg hk] at h
      rw [List.cons_append, lookupA, if_neg hk]
      exact ih h

theorem emplaceA_not_mem {β : Type} {k : Str} {l : List (Str × β)}
    (h : memA k l = false) (v : β) :
    RedisDatabase.emplaceA k v l = l ++ [(k, v)] := by
  unfold RedisDatabase.emplaceA
  rw [h]
  simp

theorem loadPairs_enc (prs : List (Str × Str)) (rest : Str) :
    ∀ mp : List (Str × Str), (∀ q ∈ prs, memA q.1 mp = false) → nodupKeys prs →
    RedisDatabase.loadPairs prs.length
        ((prs.map RedisDatabase.dumpPair).flatten ++ rest) mp = (mp ++ prs, rest) := by
  induction prs with
  | nil =>
    intro mp _ _
    simp [RedisDatabase.loadPairs]
  | cons q prs ih =>
    intro mp hmp hnd
    obtain ⟨f, v⟩ := q
    have hform : ((((f, v) :: prs).map RedisDatabase.dumpPair).flatten ++ rest : Str) =
        ' ' :: (natChars f.length ++ ' ' :: (natChars v.length ++ '\n' ::
          (f ++ (v ++ ((prs.map RedisDatabase.dumpPair).flatten ++ rest))))) := by
      simp [RedisDatabase.dumpPair]
    rw [List.length_cons, hform]
    have h1 := readNatWs_sep f.length ' '
      (natChars v.length ++ '\n' ::
        (f ++ (v ++ ((prs.map RedisDatabase.dumpPair).flatten ++ rest)))) (by decide)
    have h2 := readNatWs_sep v.length '\n'
      (f ++ (v ++ ((prs.map RedisDatabase.dumpPair).flatten ++ rest))) (by decide)
    have hemp : RedisDatabase.emplaceA f v mp = mp ++ [(f, v)] :=
      emplaceA_not_mem (hmp (f, v) (List.mem_cons_self _ _)) v
    have hfnotin : f ∉ prs.map Prod.fst := by
      have := hnd
      unfold nodupKeys at this
      simp only [List.map_cons] at this
      exact (List.nodup_cons.1 this).1
    have hmp2 : ∀ q ∈ prs, memA q.1 (mp ++ [(f, v)]) = false := by
      intro q hq
      have hne : f ≠ q.1 := by
        intro hfe
        exact hfnotin (hfe ▸ List.mem_map_of_mem Prod.fst hq)
      have hl : lookupA q.1 (mp ++ [(f, v)]) = none := by
        rw [lookupA_append_none ((memA_false_iff _ _).1
          (hmp q (List.mem_cons_of_mem _ hq)))]
        rw [lookupA, if_neg hne]
        rfl
      exact (memA_false_iff _ _).2 hl
    have hnd2 : nodupKeys prs := by
      have := hnd
      unfold nodupKeys at this ⊢
      simp only [List.map_cons] at this
      exact (List.nodup_cons.1 this).2
    simp only [RedisDatabase.loadPairs, h1, h2, getOne_cons, List.take_left,
      List.drop_left, hemp]
    rw [ih (mp ++ [(f, v)]) hmp2 hnd2]
    simp

theorem loadLoop_H (fuel : Nat) (k : Str) (prs : List (Str × Str)) (rest : Str)
    (st : DBState) (hnd : nodupKeys prs) :
    RedisDatabase.loadLoop (fuel + 1) (RedisDatabase.dumpH (k, prs) ++ rest) st =
      RedisDatabase.loadLoop fuel rest
        { st with hash_store := insertA k prs st.hash_store } := by
  have hform : RedisDatabase.dumpH (k, prs) ++ rest =
      'H' :: ' ' :: (natChars k.length ++ ' ' :: (natChars prs.length ++ '\n' ::
        (k ++ ((prs.map RedisDatabase.dumpPair).flatten ++ ('\n' :: rest))))) := by
    simp [RedisDatabase.dumpH]
  rw [hform]
  have h1 := readNatWs_sep k.length ' '
    (natChars prs.length ++ '\n' ::
      (k ++ ((prs.map RedisDatabase.dumpPair).flatten ++ ('\n' :: rest)))) (by decide)
  have h2 := readNatWs_sep prs.length '\n'
    (k ++ ((prs.map RedisDatabase.dumpPair).flatten ++ ('\n' :: rest))) (by decide)
  have h3 := loadPairs_enc prs ('\n' :: rest) [] (by intro q _; rfl) hnd
  simp only [List.nil_append] at h3
  simp only [RedisDatabase.loadLoop]
  simp only [h1, h2, getOne_cons, List.take_left, List.drop_left, h3, consumeNL_cons]
  rw [if_neg (by decide), if_neg (by decide), if_pos trivial]

theorem loadLoop_E (fuel : Nat) (k : Str) (ms : Int) (rest : Str) (st : DBState) :
    RedisDatabase.loadLoop (fuel + 1) (RedisDatabase.dumpE (k, ms) ++ rest) st =
      RedisDatabase.loadLoop fuel rest
        { st with expiry_map := insertA k ms st.expiry_map } := by
  have hform : RedisDatabase.dumpE (k, ms) ++ rest =
      'E' :: ' ' :: (natChars k.length ++ ' ' :: (intChars ms ++ '\n' ::
        (k ++ '\n' :: rest))) := by
    simp [RedisDatabase.dumpE]
  rw [hform]
  have h1 := readNatWs_sep k.length ' ' (intChars ms ++ '\n' :: (k ++ '\n' :: rest))
    (by decide)
  have h2 := readIntWs_sep ms '\n' (k ++ '\n' :: rest) (by decide)
  simp only [RedisDatabase.loadLoop]
  simp only [h1, h2, getOne_cons, List.take_left, List.drop_left, consumeNL_cons]
  rw [if_neg (by decide), if_neg (by decide), if_neg (by decide), if_pos trivial]

theorem loadLoop_nil (fuel : Nat) (st : DBState) :
    RedisDatabase.loadLoop fuel [] st = st := by
  cases fuel <;> rfl

/-! ### Replaying the four record sections -/

theorem insertA_not_mem {β : Type} {k : Str} {l : List (Str × β)}
    (h : memA k l = false) (v : β) : insertA k v l = l ++ [(k, v)] := by
  induction l with
  | nil => rfl
  | cons p t ih =>
    obtain ⟨k', v'⟩ := p
    have hk : k' ≠ k := by
      intro he
      rw [memA, lookupA, if_pos he] at h
      cases h
    have ht : memA k t = false := by
      rw [memA, lookupA, if_neg hk] at h
      exact h
    rw [insertA, if_neg hk, ih ht]
    rfl

theorem memA_append_single_false {β : Type} {q : Str} {l : List (Str × β)} {k : Str}
    {v : β} (h1 : memA q l = false) (h2 : k ≠ q) : memA q (l ++ [(k, v)]) = false := by
  refine (memA_false_iff _ _).2 ?_
  rw [lookupA_append_none ((memA_false_iff _ _).1 h1), lookupA, if_neg h2]
  rfl

theorem head_not_in_tail {β : Type} {k : Str} {v : β} {l : List (Str × β)}
    (hnd : nodupKeys ((k, v) :: l)) : k ∉ l.map Prod.fst ∧ nodupKeys l := by
  unfold nodupKeys at hnd ⊢
  simp only [List.map_cons] at hnd
  exact ⟨(List.nodup_cons.1 hnd).1, (List.nodup_cons.1 hnd).2⟩

theorem loadLoop_Ks (l : List (Str × Str)) (rest : Str) (st : DBState) (fuel : Nat)
    (h : ∀ p ∈ l, memA p.1 st.kv_store = false) (hnd : nodupKeys l) :
    RedisDatabase.loadLoop (l.length + fuel)
        ((l.map RedisDatabase.dumpK).flatten ++ rest) st =
      RedisDatabase.loadLoop fuel rest { st with kv_store := st.kv_store ++ l } := by
  induction l generalizing st with
  | nil =>
    simp only [List.length_nil, Nat.zero_add, List.map_nil, List.flatten_nil,
      List.nil_append, List.append_nil]
  | cons p l ih =>
    obtain ⟨k, v⟩ := p
    obtain ⟨hknotin, hndl⟩ := head_not_in_tail hnd
    have hflat : (((k, v) :: l).map RedisDatabase.dumpK).flatten ++ rest =
        RedisDatabase.dumpK (k, v) ++ ((l.map RedisDatabase.dumpK).flatten ++ rest) := by
      simp
    rw [hflat, List.length_cons, show l.length + 1 + fuel = (l.length + fuel) + 1 from by
      omega]
    rw [loadLoop_K (l.length + fuel) k v _ st]
    rw [insertA_not_mem (h (k, v) (List.mem_cons_self _ _)) v]
    have hconsapp : st.kv_store ++ (k, v) :: l = (st.kv_store ++ [(k, v)]) ++ l := by
      simp
    rw [hconsapp]
    exact ih { st with kv_store := st.kv_store ++ [(k, v)] }
      (by
        intro q hq
        exact memA_append_single_false (h q (List.mem_cons_of_mem _ hq))
          (fun he => hknotin (he ▸ List.mem_map_of_mem Prod.fst hq)))
      hndl

theorem loadLoop_Ls (l : List (Str × List Str)) (rest : Str) (st : DBState) (fuel : Nat)
    (h : ∀ p ∈ l, memA p.1 st.list_store = false) (hnd : nodupKeys l) :
    RedisDatabase.loadLoop (l.length + fuel)
        ((l.map RedisDatabase.dumpL).flatten ++ rest) st =
      RedisDatabase.loadLoop fuel rest { st with list_store := st.list_store ++ l } := by
  induction l generalizing st with
  | nil =>
    simp only [List.length_nil, Nat.zero_add, List.map_nil, List.flatten_nil,
      List.nil_append, List.append_nil]
  | cons p l ih =>
    obtain ⟨k, items⟩ := p
    obtain ⟨hknotin, hndl⟩ := head_not_in_tail hnd
    have hflat : (((k, items) :: l).map RedisDatabase.dumpL).flatten ++ rest =
        RedisDatabase.dumpL (k, items) ++ ((l.map RedisDatabase.dumpL).flatten ++ rest) := by
      simp
    rw [hflat, List.length_cons, show l.length + 1 + fuel = (l.length + fuel) + 1 from by
      omega]
    rw [loadLoop_L (l.length + fuel) k items _ st]
    rw [insertA_not_mem (h (k, items) (List.mem_cons_self _ _)) items]
    have hconsapp : st.list_store ++ (k, items) :: l = (st.list_store ++ [(k, items)]) ++ l := by
      simp
    rw [hconsapp]
    exact ih { st with list_store := st.list_store ++ [(k, items)] }
      (by
        intro q hq
        exact memA_append_single_false (h q (List.mem_cons_of_mem _ hq))
          (fun he => hknotin (he ▸ List.mem_map_of_mem Prod.fst hq)))
      hndl

theorem loadLoop_Hs (l : List (Str × List (Str × Str))) (rest : Str) (st : DBState)
    (fuel : Nat)
    (h : ∀ p ∈ l, memA p.1 st.hash_store = false) (hnd : nodupKeys l)
    (hf : ∀ p ∈ l, nodupKeys p.2) :
    RedisDatabase.loadLoop (l.length + fuel)
        ((l.map RedisDatabase.dumpH).flatten ++ rest) st =
      RedisDatabase.loadLoop fuel rest { st with hash_store := st.hash_store ++ l } := by
  induction l generalizing st with
  | nil =>
    simp only [List.length_nil, Nat.zero_add, List.map_nil, List.flatten_nil,
      List.nil_append, List.append_nil]
  | cons p l ih =>
    obtain ⟨k, prs⟩ := p
    obtain ⟨hknotin, hndl⟩ := head_not_in_tail hnd
    have hflat : (((k, prs) :: l).map RedisDatabase.dumpH).flatten ++ rest =
        RedisDatabase.dumpH (k, prs) ++ ((l.map RedisDatabase.dumpH).flatten ++ rest) := by
      simp
    rw [hflat, List.length_cons, show l.length + 1 + fuel = (l.length + fuel) + 1 from by
      omega]
    rw [loadLoop_H (l.length + fuel) k prs _ st (hf (k, prs) (List.mem_cons_self _ _))]
    rw [insertA_not_mem (h (k, prs) (List.mem_cons_self _ _)) prs]
    have hconsapp : st.hash_store ++ (k, prs) :: l = (st.hash_store ++ [(k, prs)]) ++ l := by
      simp
    rw [hconsapp]
    exact ih { st with hash_store := st.hash_store ++ [(k, prs)] }
      (by
        intro q hq
        exact memA_append_single_false (h q (List.mem_cons_of_mem _ hq))
          (fun he => hknotin (he ▸ List.mem_map_of_mem Prod.fst hq)))
      hndl
      (fun q hq => hf q (List.mem_cons_of_mem _ hq))

theorem loadLoop_Es (l : List (Str × Int)) (rest : Str) (st : DBState) (fuel : Nat)
    (h : ∀ p ∈ l, memA p.1 st.expiry_map = false) (hnd : nodupKeys l) :
    RedisDatabase.loadLoop (l.length + fuel)
        ((l.map RedisDatabase.dumpE).flatten ++ rest) st =
      RedisDatabase.loadLoop fuel rest { st with expiry_map := st.expiry_map ++ l } := by
  induction l generalizing st with
  | nil =>
    simp only [List.length_nil, Nat.zero_add, List.map_nil, List.flatten_nil,
      List.nil_append, List.append_nil]
  | cons p l ih =>
    obtain ⟨k, ms⟩ := p
    obtain ⟨hknotin, hndl⟩ := head_not_in_tail hnd
    have hflat : (((k, ms) :: l).map RedisDatabase.dumpE).flatten ++ rest =
        RedisDatabase.dumpE (k, ms) ++ ((l.map RedisDatabase.dumpE).flatten ++ rest) := by
      simp
    rw [hflat, List.length_cons, show l.length + 1 + fuel = (l.length + fuel) + 1 from by
      omega]
    rw [loadLoop_E (l.length + fuel) k ms _ st]
    rw [insertA_not_mem (h (k, ms) (List.mem_cons_self _ _)) ms]
    have hconsapp : st.expiry_map ++ (k, ms) :: l = (st.expiry_map ++ [(k, ms)]) ++ l := by
      simp
    rw [hconsapp]
    exact ih { st with expiry_map := st.expiry_map ++ [(k, ms)] }
      (by
        intro q hq
        exact memA_append_single_false (h q (List.mem_cons_of_mem _ hq))
          (fun he => hknotin (he ▸ List.mem_map_of_mem Prod.fst hq)))
      hndl

/-! ### The whole image replays to the original state -/

theorem length_le_flatten_map {α : Type} (f : α → Str) (l : List α)
    (h : ∀ x ∈ l, 1 ≤ (f x).length) :
    l.length ≤ ((l.map f).flatten).length := by
  induction l with
  | nil => simp
  | cons x l ih =>
    have h1 := h x (List.mem_cons_self _ _)
    have h2 := ih (fun y hy => h y (List.mem_cons_of_mem _ hy))
    simp only [List.map_cons, List.flatten_cons, List.length_append, List.length_cons]
    omega

theorem dumpK_length_pos (p : Str × Str) : 1 ≤ (RedisDatabase.dumpK p).length := by
  rw [RedisDatabase.dumpK]
  simp

theorem dumpL_length_pos (p : Str × List Str) : 1 ≤ (RedisDatabase.dumpL p).length := by
  rw [RedisDatabase.dumpL]
  simp

theorem dumpH_length_pos (p : Str × List (Str × Str)) :
    1 ≤ (RedisDatabase.dumpH p).length := by
  rw [RedisDatabase.dumpH]
  simp

theorem dumpE_length_pos (p : Str × Int) : 1 ≤ (RedisDatabase.dumpE p).length := by
  rw [RedisDatabase.dumpE]
  simp

theorem loadLoop_dump (st : DBState) (fuel : Nat)
    (hkv : nodupKeys st.kv_store) (hls : nodupKeys st.list_store)
    (hhs : nodupKeys st.hash_store) (hex : nodupKeys st.expiry_map)
    (hf : ∀ p ∈ st.hash_store, nodupKeys p.2) :
    RedisDatabase.loadLoop
        (st.kv_store.length + (st.list_store.length + (st.hash_store.length +
          (st.expiry_map.length + fuel))))
        (RedisDatabase.dump st) (RedisDatabase.flushAll st) = st := by
  have hform : RedisDatabase.dump st =
      (st.kv_store.map RedisDatabase.dumpK).flatten ++
        ((st.list_store.map RedisDatabase.dumpL).flatten ++
          ((st.hash_store.map RedisDatabase.dumpH).flatten ++
            ((st.expiry_map.map RedisDatabase.dumpE).flatten ++ []))) := by
    unfold RedisDatabase.dump
    simp
  rw [hform]
  rw [loadLoop_Ks st.kv_store _ (RedisDatabase.flushAll st) _ (by intro p hp; rfl) hkv]
  rw [loadLoop_Ls st.list_store _ _ _ (by intro p hp; rfl) hls]
  rw [loadLoop_Hs st.hash_store _ _ _ (by intro p hp; rfl) hhs hf]
  rw [loadLoop_Es st.expiry_map _ _ _ (by intro p hp; rfl) hex]
  rw [loadLoop_nil]
  rfl

theorem load_dump (st : DBState) (now : Nat)
    (hkv : nodupKeys st.kv_store) (hls : nodupKeys st.list_store)
    (hhs : nodupKeys st.hash_store) (hex : nodupKeys st.expiry_map)
    (hf : ∀ p ∈ st.hash_store, nodupKeys p.2) :
    RedisDatabase.load now (RedisDatabase.dump st) (RedisDatabase.flushAll st) =
      RedisDatabase.purgeExpired_locked now st := by
  show RedisDatabase.purgeExpired_locked now
      (RedisDatabase.loadLoop ((RedisDatabase.dump st).length + 1)
        (RedisDatabase.dump st) (RedisDatabase.flushAll st)) =
    RedisDatabase.purgeExpired_locked now st
  have h1 : st.kv_store.length ≤ ((st.kv_store.map RedisDatabase.dumpK).flatten).length :=
    length_le_flatten_map _ _ (fun x _ => dumpK_length_pos x)
  have h2 : st.list_store.length ≤
      ((st.list_store.map RedisDatabase.dumpL).flatten).length :=
    length_le_flatten_map _ _ (fun x _ => dumpL_length_pos x)
  have h3 : st.hash_store.length ≤
      ((st.hash_store.map RedisDatabase.dumpH).flatten).length :=
    length_le_flatten_map _ _ (fun x _ => dumpH_length_pos x)
  have h4 : st.expiry_map.length ≤
      ((st.expiry_map.map RedisDatabase.dumpE).flatten).length :=
    length_le_flatten_map _ _ (fun x _ => dumpE_length_pos x)
  have hlen : (RedisDatabase.dump st).length =
      ((st.kv_store.map RedisDatabase.dumpK).flatten).length +
      ((st.list_store.map RedisDatabase.dumpL).flatten).length +
      ((st.hash_store.map RedisDatabase.dumpH).flatten).length +
      ((st.expiry_map.map RedisDatabase.dumpE).flatten).length := by
    unfold RedisDatabase.dump
    simp
    omega
  have hfuel : (RedisDatabase.dump st).length + 1 =
      st.kv_store.length + (st.list_store.length + (st.hash_store.length +
        (st.expiry_map.length +
          ((RedisDatabase.dump st).length + 1 -
            (st.kv_store.length + st.list_store.length + st.hash_store.length +
              st.expiry_map.length))))) := by
    omega
  rw [hfuel, loadLoop_dump st _ hkv hls hhs hex hf]

/-! ### What the final purge keeps and removes -/

theorem lookupA_eraseA_ne {β : Type} {j k : Str} (h : j ≠ k) (l : List (Str × β)) :
    lookupA k (eraseA j l) = lookupA k l := by
  induction l with
  | nil => rfl
  | cons p t ih =>
    obtain ⟨k', v'⟩ := p
    by_cases hj : k' = j
    · rw [eraseA, if_pos hj, lookupA, if_neg (by rw [hj]; exact h)]
    · rw [eraseA, if_neg hj]
      by_cases hk : k' = k
      · rw [lookupA, if_pos hk, lookupA, if_pos hk]
      · rw [lookupA, if_neg hk, lookupA, if_neg hk]
        exact ih

theorem fastErase_lookup_ne {j k : Str} (h : j ≠ k) (st : DBState) :
    lookupA k (RedisDatabase.fastErase j st).kv_store = lookupA k st.kv_store ∧
    lookupA k (RedisDatabase.fastErase j st).list_store = lookupA k st.list_store ∧
    lookupA k (RedisDatabase.fastErase j st).hash_store = lookupA k st.hash_store := by
  unfold RedisDatabase.fastErase
  split_ifs with h1 h2
  · exact ⟨lookupA_eraseA_ne h _, rfl, rfl⟩
  · exact ⟨rfl, lookupA_eraseA_ne h _, rfl⟩
  · exact ⟨rfl, rfl, lookupA_eraseA_ne h _⟩

theorem mem_lookupA_nodup {β : Type} {l : List (Str × β)} (hnd : nodupKeys l)
    {k : Str} {v : β} (h : (k, v) ∈ l) : lookupA k l = some v := by
  induction l with
  | nil => cases h
  | cons p t ih =>
    obtain ⟨k', v'⟩ := p
    obtain ⟨hknotin, hndt⟩ := head_not_in_tail hnd
    rcases List.mem_cons.1 h with heq | hm
    · obtain ⟨h1, h2⟩ := Prod.mk.injEq _ _ _ _ ▸ heq
      rw [lookupA, if_pos h1.symm, h2]
    · have hne : k' ≠ k := by
        intro he
        exact hknotin (he ▸ List.mem_map_of_mem Prod.fst hm)
      rw [lookupA, if_neg hne]
      exact ih hndt hm

theorem purgeList_preserves_live (now : Nat) (entries : List (Str × Int)) :
    ∀ st : DBState, ∀ k : Str,
    (∀ d, (k, d) ∈ entries → RedisDatabase.tp_expired now d = false) →
    lookupA k (RedisDatabase.purgeList now entries st).kv_store =
        lookupA k st.kv_store ∧
    lookupA k (RedisDatabase.purgeList now entries st).list_store =
        lookupA k st.list_store ∧
    lookupA k (RedisDatabase.purgeList now entries st).hash_store =
        lookupA k st.hash_store ∧
    lookupA k (RedisDatabase.purgeList now entries st).expiry_map =
        lookupA k st.expiry_map := by
  induction entries with
  | nil => exact fun st k _ => ⟨rfl, rfl, rfl, rfl⟩
  | cons p rest ih =>
    intro st k hk
    obtain ⟨j, e⟩ := p
    rcases hexp : RedisDatabase.tp_expired now e with _ | _
    · simp only [RedisDatabase.purgeList, hexp, if_false]
      exact ih st k (fun d hd => hk d (List.mem_cons_of_mem _ hd))
    · have hj : j ≠ k := by
        intro he
        subst he
        have := hk e (List.mem_cons_self _ _)
        rw [this] at hexp
        cases hexp
      simp only [RedisDatabase.purgeList, hexp, if_true]
      have hfe := fastErase_lookup_ne hj st
      obtain ⟨i1, i2, i3, i4⟩ := ih
        { RedisDatabase.fastErase j st with
          expiry_map := eraseA j (RedisDatabase.fastErase j st).expiry_map }
        k (fun d hd => hk d (List.mem_cons_of_mem _ hd))
      refine ⟨?_, ?_, ?_, ?_⟩
      · rw [i1]
        exact hfe.1
      · rw [i2]
        exact hfe.2.1
      · rw [i3]
        exact hfe.2.2
      · rw [i4]
        show lookupA k (eraseA j (RedisDatabase.fastErase j st).expiry_map) =
          lookupA k st.expiry_map
        rw [fastErase_expiry]
        exact lookupA_eraseA_ne hj _

theorem purgeList_expiry_none (now : Nat) (entries : List (Str × Int)) :
    ∀ st : DBState, ∀ k : Str, lookupA k st.expiry_map = none →
    lookupA k (RedisDatabase.purgeList now entries st).expiry_map = none := by
  induction entries with
  | nil => exact fun st k h => h
  | cons p rest ih =>
    intro st k h
    obtain ⟨j, e⟩ := p
    rcases hexp : RedisDatabase.tp_expired now e with _ | _
    · simp only [RedisDatabase.purgeList, hexp, if_false]
      exact ih st k h
    · simp only [RedisDatabase.purgeList, hexp, if_true]
      refine ih _ k ?_
      show lookupA k (eraseA j (RedisDatabase.fastErase j st).expiry_map) = none
      rw [fastErase_expiry]
      exact lookupA_eraseA_of_none h j

theorem purgeList_expiry_erased (now : Nat) (entries : List (Str × Int)) :
    ∀ st : DBState, ∀ k : Str, ∀ d : Int,
    nodupKeys st.expiry_map →
    (k, d) ∈ entries → RedisDatabase.tp_expired now d = true →
    lookupA k (RedisDatabase.purgeList now entries st).expiry_map = none := by
  induction entries with
  | nil => exact fun st k d _ hmem _ => absurd hmem (List.not_mem_nil _)
  | cons p rest ih =>
    intro st k d hnd hmem hexp
    obtain ⟨j, e⟩ := p
    by_cases hj : j = k
    · subst hj
      rcases hexp2 : RedisDatabase.tp_expired now e with _ | _
      · have hdmem : (j, d) ∈ rest := by
          rcases List.mem_cons.1 hmem with heq | hm
          · obtain ⟨-, h2⟩ := Prod.mk.injEq _ _ _ _ ▸ heq
            rw [← h2] at hexp2
            rw [hexp] at hexp2
            cases hexp2
          · exact hm
        simp only [RedisDatabase.purgeList, hexp2, if_false]
        exact ih st j d hnd hdmem hexp
      · simp only [RedisDatabase.purgeList, hexp2, if_true]
        refine purgeList_expiry_none now rest _ j ?_
        show lookupA j (eraseA j (RedisDatabase.fastErase j st).expiry_map) = none
        rw [fastErase_expiry]
        exact lookupA_eraseA_self hnd j
    · have hdmem : (k, d) ∈ rest := by
        rcases List.mem_cons.1 hmem with heq | hm
        · obtain ⟨h1, -⟩ := Prod.mk.injEq _ _ _ _ ▸ heq
          exact absurd h1.symm hj
        · exact hm
      rcases hexp2 : RedisDatabase.tp_expired now e with _ | _
      · simp only [RedisDatabase.purgeList, hexp2, if_false]
        exact ih st k d hnd hdmem hexp
      · simp only [RedisDatabase.purgeList, hexp2, if_true]
        refine ih _ k d ?_ hdmem hexp
        show nodupKeys (eraseA j (RedisDatabase.fastErase j st).expiry_map)
        rw [fastErase_expiry]
        exact nodupKeys_eraseA hnd j

/-- C7: for well-formed states (association-list stores with distinct keys,
distinct fields inside each hash, and a single type per key), the snapshot
round trip `dump; flushAll; load` restores the state exactly up to the final
purge `load` runs: the result is precisely `purgeExpired_locked now st`;
consequently every key that is live at load time keeps its string, list,
hash and expiry entries byte for byte, and every key whose recorded deadline
has already passed at load time is purged (gone from all three stores and
from the expiry map) before `load` returns. -/
theorem c7_dump_load_roundtrip (st : DBState) (now : Nat)
    (hkv : nodupKeys st.kv_store) (hls : nodupKeys st.list_store)
    (hhs : nodupKeys st.hash_store) (hex : nodupKeys st.expiry_map)
    (hf : ∀ p ∈ st.hash_store, nodupKeys p.2)
    (hsingle : singleTyped st) :
    RedisDatabase.load now (RedisDatabase.dump st) (RedisDatabase.flushAll st) =
      RedisDatabase.purgeExpired_locked now st ∧
    (∀ k, keyLive now st k →
      lookupA k (RedisDatabase.load now (RedisDatabase.dump st)
          (RedisDatabase.flushAll st)).kv_store = lookupA k st.kv_store ∧
      lookupA k (RedisDatabase.load now (RedisDatabase.dump st)
          (RedisDatabase.flushAll st)).list_store = lookupA k st.list_store ∧
      lookupA k (RedisDatabase.load now (RedisDatabase.dump st)
          (RedisDatabase.flushAll st)).hash_store = lookupA k st.hash_store ∧
      lookupA k (RedisDatabase.load now (RedisDatabase.dump st)
          (RedisDatabase.flushAll st)).expiry_map = lookupA k st.expiry_map) ∧
    (∀ k d, lookupA k st.expiry_map = some d →
      RedisDatabase.tp_expired now d = true →
      lookupA k (RedisDatabase.load now (RedisDatabase.dump st)
          (RedisDatabase.flushAll st)).kv_store = none ∧
      lookupA k (RedisDatabase.load now (RedisDatabase.dump st)
          (RedisDatabase.flushAll st)).list_store = none ∧
      lookupA k (RedisDatabase.load now (RedisDatabase.dump st)
          (RedisDatabase.flushAll st)).hash_store = none ∧
      lookupA k (RedisDatabase.load now (RedisDatabase.dump st)
          (RedisDatabase.flushAll st)).expiry_map = none) := by
  have heq := load_dump st now hkv hls hhs hex hf
  refine ⟨heq, ?_, ?_⟩
  · intro k hlive
    rw [heq]
    unfold RedisDatabase.purgeExpired_locked
    refine purgeList_preserves_live now st.expiry_map st k ?_
    intro d hd
    have hld := mem_lookupA_nodup hex hd
    have hlt := hlive d hld
    simp only [RedisDatabase.tp_expired, decide_eq_false_iff_not]
    omega
  · intro k d hld hexp2
    rw [heq]
    unfold RedisDatabase.purgeExpired_locked
    have hpair : (k, d) ∈ st.expiry_map := lookupA_mem_pair hld
    have h3 := @purgeList_removes now st.expiry_map st k d
      ⟨hkv, hls, hhs, hsingle⟩ hpair hexp2
    have h4 := purgeList_expiry_erased now st.expiry_map st k d hex hpair hexp2
    exact ⟨h3.1, h3.2.1, h3.2.2, h4⟩

theorem memA_singleton_eq {β : Type} {k j : Str} {v : β}
    (h : memA k [(j, v)] = true) : j = k := by
  by_cases hj : j = k
  · exact hj
  · exfalso
    rw [memA] at h
    simp [lookupA, hj] at h

/-- The concrete state for the C7 witness: one string, one list, one hash,
one already-passed deadline (key `a` at 500 ms, checked at 1000 ms) and one
future deadline (key `l` at 99999 ms). -/
def c7state : DBState :=
  ⟨[("a".toList, "1".toList)], [("l".toList, ["x".toList])],
   [("h".toList, [("f".toList, "w".toList)])],
   [("a".toList, 500), ("l".toList, 99999)], 0⟩

theorem c7_witness :
    RedisDatabase.load 1000 (RedisDatabase.dump c7state)
        (RedisDatabase.flushAll c7state) =
      RedisDatabase.purgeExpired_locked 1000 c7state ∧
    (∀ k, keyLive 1000 c7state k →
      lookupA k (RedisDatabase.load 1000 (RedisDatabase.dump c7state)
          (RedisDatabase.flushAll c7state)).kv_store = lookupA k c7state.kv_store ∧
      lookupA k (RedisDatabase.load 1000 (RedisDatabase.dump c7state)
          (RedisDatabase.flushAll c7state)).list_store = lookupA k c7state.list_store ∧
      lookupA k (RedisDatabase.load 1000 (RedisDatabase.dump c7state)
          (RedisDatabase.flushAll c7state)).hash_store = lookupA k c7state.hash_store ∧
      lookupA k (RedisDatabase.load 1000 (RedisDatabase.dump c7state)
          (RedisDatabase.flushAll c7state)).expiry_map = lookupA k c7state.expiry_map) ∧
    (∀ k d, lookupA k c7state.expiry_map = some d →
      RedisDatabase.tp_expired 1000 d = true →
      lookupA k (RedisDatabase.load 1000 (RedisDatabase.dump c7state)
          (RedisDatabase.flushAll c7state)).kv_store = none ∧
      lookupA k (RedisDatabase.load 1000 (RedisDatabase.dump c7state)
          (RedisDatabase.flushAll c7state)).list_store = none ∧
      lookupA k (RedisDatabase.load 1000 (RedisDatabase.dump c7state)
          (RedisDatabase.flushAll c7state)).hash_store = none ∧
      lookupA k (RedisDatabase.load 1000 (RedisDatabase.dump c7state)
          (RedisDatabase.flushAll c7state)).expiry_map = none) :=
  c7_dump_load_roundtrip c7state 1000
    (by show (List.map Prod.fst [("a".toList, "1".toList)]).Nodup; decide)
    (by show (List.map Prod.fst [("l".toList, ["x".toList])]).Nodup; decide)
    (by show (List.map Prod.fst [("h".toList, [("f".toList, "w".toList)])]).Nodup; decide)
    (by show (List.map Prod.fst
      [(("a".toList : Str), (500 : Int)), ("l".toList, 99999)]).Nodup; decide)
    (by
      intro p hp
      have hp2 : p = ("h".toList, [("f".toList, "w".toList)]) := by
        simpa [c7state] using hp
      subst hp2
      show (List.map Prod.fst [("f".toList, "w".toList)]).Nodup
      decide)
    (by
      intro k
      refine ⟨fun hk => ?_, fun hk => ?_⟩
      · have hka : k = "a".toList := (memA_singleton_eq hk).symm
        subst hka
        exact ⟨by decide, by decide⟩
      · have hkl : k = "l".toList := (memA_singleton_eq hk).symm
        subst hkl
        decide)

end FlashKv
